import Mathlib

/-!
Verification of the opening-range-breakout trading core.

Shallow embedding of the decision core of the `trading_bot` repository:

* `opening_range_strategy.py` (`OpeningRangeBreakout`): opening-range
  computation, breakout detection, stop/target derivation, exit evaluation;
* `position_manager.py` (`Trade`, `PositionManager`): the trade ledger,
  kill switches and position sizing;
* `backtester.py` (`backtest_symbol`): the replay driver for one trading day;
* `trading_bot.py` (`DayTradingBot.monitor_symbol`,
  `monitor_open_positions`, `run_session`): the live driver, idealised to one
  poll per bar inside the trading window, each poll seeing all bars so far.

Modelling conventions:

* Python floats are embedded as exact rationals `ℚ`; the properties under
  study are exact arithmetic relationships.
* A bar carries its exchange-local hour-of-day `estHour : ℚ` directly; the
  source obtains it from a timezone service (`get_est_hour` via `ZoneInfo`),
  which the spec treats as an external clock/timezone collaborator.
* Timestamps on trades are the bar's local hour.  The source's replay driver
  passes the bar timestamp explicitly while the engine's own
  `open_trade`/`close_trade` sample a wall clock and accept no timestamp
  argument (the parameter mismatch recorded in the spec's design notes); the
  engine is embedded with the explicit-timestamp contract, and the live
  driver supplies the placeholder `0` where the source samples the wall
  clock.  No property proved below depends on a stored timestamp value.
* Reason strings are embedded as an inductive type with one constructor per
  distinct source string, parameterised by the interpolated values; two
  reasons are equal exactly when the source strings are.
* Python exceptions are embedded as `Except String`; a `raise` that a caller
  does not catch propagates through `Except.bind`.
-/

namespace TradingBot

/-- Price bar: one row of the 1-minute data frame, with the exchange-local
hour (`get_est_hour` of the `time` column) precomputed.  `openPrice` embeds
the `open` column (a Lean keyword). -/
structure Bar where
  estHour : ℚ
  openPrice : ℚ
  high : ℚ
  low : ℚ
  close : ℚ
  volume : ℚ
  deriving DecidableEq, Repr

/-- Class constant `OpeningRangeBreakout.MARKET_OPEN_EST = 9.5` (9:30 AM). -/
def MARKET_OPEN_EST : ℚ := 9.5

/-- Class constant `OpeningRangeBreakout.TRADING_WINDOW_START = 9.583`. -/
def TRADING_WINDOW_START : ℚ := 9.583

/-- Class constant `OpeningRangeBreakout.TRADING_WINDOW_END = 10.5`. -/
def TRADING_WINDOW_END : ℚ := 10.5

/-- The dict stored in `OpeningRangeBreakout.opening_range`. -/
structure OpeningRange where
  high : ℚ
  low : ℚ
  range_width : ℚ
  avg_volume : ℚ
  deriving DecidableEq, Repr

/-- Bars of the 9:30-9:35 window: the filter loop of
`calculate_opening_range` (`MARKET_OPEN_EST <= hour < TRADING_WINDOW_START`). -/
def openingBars (bars : List Bar) : List Bar :=
  bars.filter fun b =>
    decide (MARKET_OPEN_EST ≤ b.estHour) && decide (b.estHour < TRADING_WINDOW_START)

/-- Value computed by `OpeningRangeBreakout.calculate_opening_range`: `none`
when the frame is empty or no bar falls in the opening window, otherwise the
max-high / min-low / mean-volume aggregate of the opening-window bars. -/
def calculate_opening_range (bars : List Bar) : Option OpeningRange :=
  match openingBars bars with
  | [] => none
  | b :: rest =>
      let high := rest.foldl (fun a x => max a x.high) b.high
      let low := rest.foldl (fun a x => min a x.low) b.low
      let avg_volume := ((b :: rest).map Bar.volume).sum / ((b :: rest).length : ℚ)
      some { high := high, low := low, range_width := high - low, avg_volume := avg_volume }

/-- State effect of calling `calculate_opening_range` on the strategy object:
a successful computation overwrites `self.opening_range`, a `None` return
leaves it untouched. -/
def applyCalcOpeningRange (stored : Option OpeningRange) (bars : List Bar) :
    Option OpeningRange :=
  match calculate_opening_range bars with
  | none => stored
  | some r => some r

/-- Signal component of a `check_breakout` result. -/
inductive BSignal
  | LONG_BREAKOUT
  | NO_SETUP
  deriving DecidableEq, Repr

/-- Reason strings of `check_breakout`, one constructor per distinct source
string, carrying the interpolated values. -/
inductive BReason
  | noOpeningRange
  | outsideTradingWindow
  | volumeTooLow (volume min_volume : ℚ)
  | noBreakoutYet
  | breakoutAboveRangeHigh (range_high entry : ℚ)
  deriving DecidableEq, Repr

/-- Dict returned by `check_breakout`. -/
structure BreakoutResult where
  signal : BSignal
  entry_price : Option ℚ
  reason : BReason
  deriving DecidableEq, Repr

/-- Translation of `OpeningRangeBreakout.check_breakout`; `rng` is the stored
`self.opening_range`, `volume_threshold` the keyword argument (1.5 at every
call site). -/
def check_breakout (rng : Option OpeningRange) (current_bar : Bar)
    (volume_threshold : ℚ) : BreakoutResult :=
  match rng with
  | none => ⟨.NO_SETUP, none, .noOpeningRange⟩
  | some r =>
      if TRADING_WINDOW_START ≤ current_bar.estHour ∧
          current_bar.estHour ≤ TRADING_WINDOW_END then
        let min_volume := r.avg_volume * volume_threshold
        if current_bar.volume < min_volume then
          ⟨.NO_SETUP, none, .volumeTooLow current_bar.volume min_volume⟩
        else if r.high < current_bar.high then
          ⟨.LONG_BREAKOUT, some current_bar.close,
            .breakoutAboveRangeHigh r.high current_bar.close⟩
        else
          ⟨.NO_SETUP, none, .noBreakoutYet⟩
      else
        ⟨.NO_SETUP, none, .outsideTradingWindow⟩

/-- Dict returned by `calculate_stops_and_targets` (the non-empty case). -/
structure Levels where
  stop_loss : ℚ
  take_profit_aggressive : ℚ
  take_profit_conservative : ℚ
  trailing_stop_start : ℚ
  risk_per_trade : ℚ
  deriving DecidableEq, Repr

/-- Translation of `OpeningRangeBreakout.calculate_stops_and_targets`; the
source returns the empty dict when `self.opening_range is None`, embedded as
`none`. -/
def calculate_stops_and_targets (rng : Option OpeningRange)
    (entry_price : ℚ) : Option Levels :=
  match rng with
  | none => none
  | some r =>
      some { stop_loss := r.low
             take_profit_aggressive := entry_price * 1.12
             take_profit_conservative := entry_price * 1.08
             trailing_stop_start := entry_price * 1.06
             risk_per_trade := entry_price - r.low }

/-- Signal component of a `should_exit` result. -/
inductive ESignal
  | EXIT_PROFIT
  | EXIT_LOSS
  | HOLD
  deriving DecidableEq, Repr

/-- Exit-reason strings, one constructor per distinct source string: the
three formatted strings of `should_exit` and `"No exit condition"`, the plain
`"Stop loss"`/`"Take profit"` of `DayTradingBot.monitor_open_positions`, the
`"End of day"` of `backtest_symbol` and the `"Market close"` of
`run_session`. -/
inductive EReason
  | stopLossHit (stop_loss : ℚ)
  | takeProfitHit (take_profit : ℚ)
  | trailingStopAt (current_price : ℚ)
  | noExitCondition
  | stopLoss
  | takeProfit
  | endOfDay
  | marketClose
  deriving DecidableEq, Repr

/-- Dict returned by `should_exit`. -/
structure ExitResult where
  signal : ESignal
  exit_price : Option ℚ
  reason : EReason
  deriving DecidableEq, Repr

/-- Translation of `OpeningRangeBreakout.should_exit`: stop-loss checked
first, then take-profit, then the optional trailing stop. -/
def should_exit (current_price stop_loss take_profit : ℚ)
    (trailing_stop : Option ℚ) : ExitResult :=
  if current_price ≤ stop_loss then
    ⟨.EXIT_LOSS, some stop_loss, .stopLossHit stop_loss⟩
  else if take_profit ≤ current_price then
    ⟨.EXIT_PROFIT, some take_profit, .takeProfitHit take_profit⟩
  else
    match trailing_stop with
    | some ts =>
        if ts ≤ current_price then
          ⟨.EXIT_PROFIT, some current_price, .trailingStopAt current_price⟩
        else
          ⟨.HOLD, none, .noExitCondition⟩
    | none => ⟨.HOLD, none, .noExitCondition⟩

/-- Record of one trade (`position_manager.Trade`).  Times are the bar's
local hour (see the module comment); exit fields start at the dataclass
defaults `None`/`0.0`. -/
structure Trade where
  symbol : String
  entry_price : ℚ
  entry_time : ℚ
  quantity : ℚ
  stop_loss : ℚ
  take_profit : ℚ
  exit_price : Option ℚ
  exit_time : Option ℚ
  exit_reason : Option EReason
  pnl : ℚ
  pnl_pct : ℚ
  deriving DecidableEq, Repr

/-- Translation of `Trade.close`: overwrites the exit fields and recomputes
`pnl`/`pnl_pct` from this call's exit price. -/
def Trade.close (t : Trade) (exit_price : ℚ) (exit_time : ℚ)
    (reason : EReason) : Trade :=
  { t with
    exit_price := some exit_price
    exit_time := some exit_time
    exit_reason := some reason
    pnl := (exit_price - t.entry_price) * t.quantity
    pnl_pct := (exit_price - t.entry_price) / t.entry_price * 100 }

/-- Class constant `PositionManager.MAX_TRADES_PER_DAY = 2`. -/
def MAX_TRADES_PER_DAY : ℕ := 2

/-- Class constant `PositionManager.MAX_DAILY_LOSS_PCT = -0.08`. -/
def MAX_DAILY_LOSS_PCT : ℚ := -0.08

/-- State of `position_manager.PositionManager`.  The unused constant
`POSITION_SIZE_PCT = 0.8` is mentioned in the source but read nowhere, so it
is not part of the state. -/
structure PositionManager where
  starting_capital : ℚ
  current_capital : ℚ
  open_trades : List Trade
  closed_trades : List Trade
  trades_today : ℕ
  losing_trade_hit : Bool
  daily_pnl : ℚ
  deriving DecidableEq, Repr

/-- Constructor `PositionManager.__init__(starting_capital)`. -/
def PositionManager.init (starting_capital : ℚ) : PositionManager :=
  { starting_capital := starting_capital
    current_capital := starting_capital
    open_trades := []
    closed_trades := []
    trades_today := 0
    losing_trade_hit := false
    daily_pnl := 0 }

/-- Translation of `PositionManager.reset_daily_limits`. -/
def PositionManager.reset_daily_limits (pm : PositionManager) : PositionManager :=
  { pm with trades_today := 0, losing_trade_hit := false, daily_pnl := 0 }

/-- Denial reasons returned by `can_open_trade`, one constructor per source
string. -/
inductive DenyReason
  | maxTradesPerDay
  | stoppedAfterLosingTrade
  | maxDailyLoss (daily_loss_pct : ℚ)
  | OK
  deriving DecidableEq, Repr

/-- Translation of `PositionManager.can_open_trade`: the three kill switches
evaluated in source order.  The source divides `daily_pnl` by
`starting_capital`; with `starting_capital = 0` the source would raise
`ZeroDivisionError` while `ℚ` division yields `0` — no property below is
stated at zero starting capital. -/
def PositionManager.can_open_trade (pm : PositionManager) : Bool × DenyReason :=
  if MAX_TRADES_PER_DAY ≤ pm.trades_today then
    (false, .maxTradesPerDay)
  else if pm.losing_trade_hit then
    (false, .stoppedAfterLosingTrade)
  else
    let daily_loss_pct := pm.daily_pnl / pm.starting_capital
    if daily_loss_pct ≤ MAX_DAILY_LOSS_PCT then
      (false, .maxDailyLoss daily_loss_pct)
    else
      (true, .OK)

/-- Translation of `PositionManager.calculate_position_size`: returns `0`
when `entry_price - stop_loss ≤ 0`, otherwise
`current_capital * 0.02 / risk_per_share`; no clamp to available capital. -/
def PositionManager.calculate_position_size (pm : PositionManager)
    (entry_price stop_loss : ℚ) : ℚ :=
  let risk_per_share := entry_price - stop_loss
  if risk_per_share ≤ 0 then 0
  else pm.current_capital * 0.02 / risk_per_share

/-- Translation of `PositionManager.open_trade`: raises (`Except.error`) when
admission is denied or the computed size is non-positive; on success appends
the new trade to the open set and increments `trades_today`. -/
def PositionManager.open_trade (pm : PositionManager) (symbol : String)
    (entry_price stop_loss take_profit : ℚ) (entry_time : ℚ) :
    Except String (PositionManager × Trade) :=
  if (pm.can_open_trade).1 then
    if pm.calculate_position_size entry_price stop_loss ≤ 0 then
      .error "Position size <= 0"
    else
      .ok ({ pm with
              open_trades := pm.open_trades ++
                [⟨symbol, entry_price, entry_time,
                  pm.calculate_position_size entry_price stop_loss,
                  stop_loss, take_profit, none, none, none, 0, 0⟩]
              trades_today := pm.trades_today + 1 },
            ⟨symbol, entry_price, entry_time,
              pm.calculate_position_size entry_price stop_loss,
              stop_loss, take_profit, none, none, none, 0, 0⟩)
  else
    .error "Cannot open trade"

/-- Translation of `PositionManager.close_trade`.  The source mutates the
passed `Trade` object first (`trade.close(...)`) and only then removes it
from `open_trades`; `list.remove` raises `ValueError` when the trade is not
in the open set, leaving the manager unchanged but the trade already
mutated.  The first component is the (always) mutated trade, the second the
manager outcome.  Membership and removal use field equality, as Python's
`list.remove` does for a dataclass; the element in the list is the same
object as the argument, so removal by the pre-mutation value is faithful. -/
def PositionManager.close_trade (pm : PositionManager) (trade : Trade)
    (exit_price : ℚ) (reason : EReason) (exit_time : ℚ) :
    Trade × Except String PositionManager :=
  let t := trade.close exit_price exit_time reason
  if trade ∈ pm.open_trades then
    (t, .ok { pm with
        open_trades := pm.open_trades.erase trade
        closed_trades := pm.closed_trades ++ [t]
        daily_pnl := pm.daily_pnl + t.pnl
        current_capital := pm.current_capital + t.pnl
        losing_trade_hit := if t.pnl < 0 then true else pm.losing_trade_hit })
  else
    (t, .error "ValueError: list.remove(x): x not in list")

/-- Translation of `PositionManager.get_open_position`: first open trade with
the given symbol, if any. -/
def PositionManager.get_open_position (pm : PositionManager)
    (symbol : String) : Option Trade :=
  pm.open_trades.find? fun t => t.symbol == symbol

/-- Per-bar decision outcome of a session driver: an entry with its fill
price, size and levels, or an exit (including forced day-end closes) with its
fill price and reason. -/
inductive Event
  | entered (symbol : String) (price quantity stop_loss take_profit : ℚ)
  | exited (price : ℚ) (reason : EReason)
  deriving DecidableEq, Repr

/-- Loop state of `backtest_symbol` for one trading day: the bars iterated so
far, the day's strategy object (its `opening_range` field), the shared
position manager, the `open_position` local, and the decisions taken. -/
structure ReplayState where
  seen : List Bar
  opening_range : Option OpeningRange
  pm : PositionManager
  open_position : Option Trade
  events : List Event
  deriving DecidableEq, Repr

/-- Entry attempt of the replay per-bar step (`backtest_symbol` Step 2, run
only with `open_position is None`): check breakout, check admission, derive
levels and open; `open_trade`'s exceptions are not caught here.
`check_breakout` guarantees `entry_price` is the bar close on
`LONG_BREAKOUT`, so the `getD 0` default never fires. -/
def replay_entry (symbol : String) (rng : Option OpeningRange)
    (pm : PositionManager) (row : Bar) :
    Except String (PositionManager × Option Trade × Option Event) :=
  if (check_breakout rng row 1.5).signal = .LONG_BREAKOUT then
    if (pm.can_open_trade).1 then
      match calculate_stops_and_targets rng
          ((check_breakout rng row 1.5).entry_price.getD 0) with
      | none => .error "KeyError: stop_loss"
      | some levels =>
          match pm.open_trade symbol
              ((check_breakout rng row 1.5).entry_price.getD 0)
              levels.stop_loss levels.take_profit_conservative row.estHour with
          | .error e => .error e
          | .ok (pm', t) =>
              .ok (pm', some t,
                some (Event.entered symbol t.entry_price t.quantity
                  t.stop_loss t.take_profit))
    else .ok (pm, none, none)
  else .ok (pm, none, none)

/-- Exit check of the replay per-bar step (`backtest_symbol` Step 3): with a
position held (possibly opened this very bar), evaluate `should_exit` on the
bar close and close on any non-`HOLD` signal; a `close_trade` exception is
not caught.  Packs the step's result state. -/
def replay_exit_check (seen : List Bar) (rng : Option OpeningRange)
    (pm : PositionManager) (pos : Option Trade) (events : List Event)
    (row : Bar) : Except String ReplayState :=
  match pos with
  | none => .ok ⟨seen, rng, pm, none, events⟩
  | some t =>
      let exit_check := should_exit row.close t.stop_loss t.take_profit none
      if exit_check.signal ≠ .HOLD then
        match (pm.close_trade t (exit_check.exit_price.getD 0)
            exit_check.reason row.estHour).2 with
        | .error e => .error e
        | .ok pm2 =>
            .ok ⟨seen, rng, pm2, none,
              events ++ [Event.exited (exit_check.exit_price.getD 0) exit_check.reason]⟩
      else .ok ⟨seen, rng, pm, some t, events⟩

/-- Step 1 of the per-bar logic: the strategy's range after this bar —
unchanged when already set, else whatever `calculate_opening_range` computes
from the bars so far (this bar included). -/
def replay_rng (st : ReplayState) (row : Bar) : Option OpeningRange :=
  match st.opening_range with
  | some r => some r
  | none => applyCalcOpeningRange none (st.seen ++ [row])

/-- Body of the inner `for idx, row in day_df.iterrows()` loop of
`backtest_symbol`: (1) compute the opening range from the bars so far while
unset; (2) with no position, attempt an entry; (3) with a position, check the
exit. -/
def replay_step (symbol : String) (st : ReplayState) (row : Bar) :
    Except String ReplayState :=
  match st.open_position with
  | some t =>
      replay_exit_check (st.seen ++ [row]) (replay_rng st row) st.pm (some t)
        st.events row
  | none =>
      match replay_entry symbol (replay_rng st row) st.pm row with
      | .error e => .error e
      | .ok (pm1, pos1, ev1) =>
          replay_exit_check (st.seen ++ [row]) (replay_rng st row) pm1 pos1
            (st.events ++ ev1.toList) row

/-- One trading day of `backtest_symbol`, from an arbitrary carried-over
manager state: reset daily limits, fresh strategy, iterate the day's bars,
then force-close any remaining position at the day's last bar close with
reason `"End of day"`. -/
def replay_day (symbol : String) (pm0 : PositionManager) (bars : List Bar) :
    Except String ReplayState := do
  let st0 : ReplayState :=
    { seen := [], opening_range := none, pm := pm0.reset_daily_limits,
      open_position := none, events := [] }
  let st ← bars.foldlM (replay_step symbol) st0
  match st.open_position with
  | none => pure st
  | some pos =>
      match st.seen.getLast? with
      | none => pure st
      | some lastBar =>
          match (st.pm.close_trade pos lastBar.close .endOfDay lastBar.estHour).2 with
          | .error e => .error e
          | .ok pm2 =>
              pure { st with
                       pm := pm2
                       open_position := none
                       events := st.events ++ [Event.exited lastBar.close .endOfDay] }

/-- Session state of `DayTradingBot`, idealised per-bar: bars fetched so far,
the symbol's strategy object, the shared manager, the decisions taken, and
whether the `run_session` loop has been broken by a kill switch. -/
structure LiveState where
  seen : List Bar
  opening_range : Option OpeningRange
  pm : PositionManager
  events : List Event
  stopped : Bool
  deriving DecidableEq, Repr

/-- Entry attempt of `DayTradingBot.monitor_symbol` on the latest bar: check
breakout, skip when a position for the symbol exists or admission is denied;
the body sits in a `try/except`, so `open_trade`'s exceptions become a plain
"no entry".  The wall-clock entry time sampled by the engine is embedded as
the placeholder `0`. -/
def live_entry (symbol : String) (rng : Option OpeningRange)
    (pm : PositionManager) (last_bar : Bar) :
    PositionManager × Option Event :=
  if (check_breakout rng last_bar 1.5).signal = .LONG_BREAKOUT then
    match pm.get_open_position symbol with
    | some _ => (pm, none)
    | none =>
        if (pm.can_open_trade).1 then
          match calculate_stops_and_targets rng
              ((check_breakout rng last_bar 1.5).entry_price.getD 0) with
          | none => (pm, none)
          | some levels =>
              match pm.open_trade symbol
                  ((check_breakout rng last_bar 1.5).entry_price.getD 0)
                  levels.stop_loss levels.take_profit_conservative 0 with
              | .error _ => (pm, none)
              | .ok (pm', t) =>
                  (pm', some (Event.entered symbol t.entry_price t.quantity
                    t.stop_loss t.take_profit))
        else (pm, none)
  else (pm, none)

/-- Translation of `DayTradingBot.monitor_symbol`: with data available,
compute the opening range while unset (from all bars so far), then attempt
an entry on the latest bar. -/
def monitor_symbol (symbol : String) (st : LiveState) : LiveState :=
  match st.seen.getLast? with
  | none => st
  | some last_bar =>
      let rng := match st.opening_range with
        | some r => some r
        | none => applyCalcOpeningRange none st.seen
      let res := live_entry symbol rng st.pm last_bar
      { st with
          opening_range := rng
          pm := res.1
          events := st.events ++ res.2.toList }

/-- One iteration of the `DayTradingBot.monitor_open_positions` loop for one
open trade: close at the stop (checked first) or the target against the
latest close; close errors are swallowed by the per-trade `try/except`. -/
def live_exit_trade (last_bar : Bar) (acc : PositionManager × List Event)
    (t : Trade) : PositionManager × List Event :=
  let current_price := last_bar.close
  if current_price ≤ t.stop_loss then
    match (acc.1.close_trade t t.stop_loss .stopLoss 0).2 with
    | .ok pm' => (pm', acc.2 ++ [Event.exited t.stop_loss .stopLoss])
    | .error _ => acc
  else if t.take_profit ≤ current_price then
    match (acc.1.close_trade t t.take_profit .takeProfit 0).2 with
    | .ok pm' => (pm', acc.2 ++ [Event.exited t.take_profit .takeProfit])
    | .error _ => acc
  else acc

/-- Translation of `DayTradingBot.monitor_open_positions`: iterate a snapshot
of the open trades against the latest close (skipped bodily when no data has
been fetched, as each per-trade fetch would come back empty). -/
def monitor_open_positions (st : LiveState) : LiveState :=
  match st.seen.getLast? with
  | none => st
  | some last_bar =>
      let res := st.pm.open_trades.foldl (live_exit_trade last_bar) (st.pm, st.events)
      { st with pm := res.1, events := res.2 }

/-- One bar of live operation: the bar arrives; while the session is not
stopped and the bar's local time is inside the `is_trading_window` bounds,
one `run_session` loop iteration runs (`monitor_symbol`, then
`monitor_open_positions`, then the two kill-switch break checks). -/
def live_step (symbol : String) (st : LiveState) (row : Bar) : LiveState :=
  let st1 := { st with seen := st.seen ++ [row] }
  if st1.stopped then st1
  else if TRADING_WINDOW_START ≤ row.estHour ∧ row.estHour ≤ TRADING_WINDOW_END then
    let st2 := monitor_open_positions (monitor_symbol symbol st1)
    if st2.pm.losing_trade_hit then { st2 with stopped := true }
    else if st2.pm.daily_pnl / st2.pm.starting_capital ≤ MAX_DAILY_LOSS_PCT then
      { st2 with stopped := true }
    else st2
  else st1

/-- One live session (`DayTradingBot.run_session`) over a day's bars: reset
daily limits, poll bar-by-bar inside the trading window, then force-close
remaining positions at the latest available close (falling back to the entry
price with no data) with reason `"Market close"`; those final `close_trade`
calls are outside any `try/except` for close errors. -/
def live_day (symbol : String) (pm0 : PositionManager) (bars : List Bar) :
    Except String LiveState :=
  let st0 : LiveState :=
    { seen := [], opening_range := none, pm := pm0.reset_daily_limits,
      events := [], stopped := false }
  let st := bars.foldl (live_step symbol) st0
  st.pm.open_trades.foldlM (fun s t =>
    let current_price := match s.seen.getLast? with
      | some b => b.close
      | none => t.entry_price
    match (s.pm.close_trade t current_price .marketClose 0).2 with
    | .ok pm' =>
        .ok { s with
                pm := pm'
                events := s.events ++ [Event.exited current_price .marketClose] }
    | .error e => .error e) st

/-- An `open_trade` or `close_trade` call, for quantifying over arbitrary
operation sequences against the engine. -/
inductive LedgerOp
  | openOp (symbol : String) (entry_price stop_loss take_profit entry_time : ℚ)
  | closeOp (trade : Trade) (exit_price : ℚ) (reason : EReason) (exit_time : ℚ)

/-- Applies a sequence of engine calls; a call that raises leaves the manager
unchanged (the exception propagates to the caller, not into the ledger). -/
def runOps (pm : PositionManager) : List LedgerOp → PositionManager
  | [] => pm
  | op :: rest =>
      let pm' := match op with
        | .openOp s e sl tp t =>
            match pm.open_trade s e sl tp t with
            | .ok (pmn, _) => pmn
            | .error _ => pm
        | .closeOp tr e r t =>
            match (pm.close_trade tr e r t).2 with
            | .ok pmn => pmn
            | .error _ => pm
      runOps pm' rest

/-! Theorems -/

/-- C3: `should_exit` checks stop-loss first, then take-profit, then
trailing-stop; it returns `EXIT_LOSS` with exit price exactly `stop_loss`
whenever `current_price ≤ stop_loss`, `EXIT_PROFIT` at exactly `take_profit`
when `current_price ≥ take_profit` (and not `≤ stop_loss`), `EXIT_PROFIT` at
`current_price` when a trailing stop is supplied and triggered, else `HOLD`;
on a gap-through bar satisfying both stop and target the result is
`EXIT_LOSS`, never `EXIT_PROFIT`. -/
theorem should_exit_priority (current_price stop_loss take_profit : ℚ)
    (trailing_stop : Option ℚ) :
    (current_price ≤ stop_loss →
      should_exit current_price stop_loss take_profit trailing_stop
        = ⟨.EXIT_LOSS, some stop_loss, .stopLossHit stop_loss⟩) ∧
    (¬ current_price ≤ stop_loss → take_profit ≤ current_price →
      should_exit current_price stop_loss take_profit trailing_stop
        = ⟨.EXIT_PROFIT, some take_profit, .takeProfitHit take_profit⟩) ∧
    (¬ current_price ≤ stop_loss → ¬ take_profit ≤ current_price →
      ∀ ts, trailing_stop = some ts → ts ≤ current_price →
      should_exit current_price stop_loss take_profit trailing_stop
        = ⟨.EXIT_PROFIT, some current_price, .trailingStopAt current_price⟩) ∧
    (¬ current_price ≤ stop_loss → ¬ take_profit ≤ current_price →
      (∀ ts, trailing_stop = some ts → ¬ ts ≤ current_price) →
      should_exit current_price stop_loss take_profit trailing_stop
        = ⟨.HOLD, none, .noExitCondition⟩) ∧
    (current_price ≤ stop_loss → take_profit ≤ current_price →
      (should_exit current_price stop_loss take_profit trailing_stop).signal
        = .EXIT_LOSS) := by
  refine ⟨fun h1 => ?_, fun h1 h2 => ?_, fun h1 h2 ts hts h3 => ?_,
    fun h1 h2 h3 => ?_, fun h1 _ => ?_⟩
  · simp [should_exit, h1]
  · simp [should_exit, h1, h2]
  · simp [should_exit, h1, h2, hts, h3]
  · cases hts : trailing_stop with
    | none => simp [should_exit, h1, h2, hts]
    | some ts => simp [should_exit, h1, h2, hts, h3 ts hts]
  · simp [should_exit, h1]

/-- Witness for C3 at the gap-through input `current_price = 95 ≤ 100 =
stop_loss` and `take_profit = 90 ≤ 95`: the stop wins. -/
theorem should_exit_priority_witness :
    should_exit 95 100 90 none
        = ⟨.EXIT_LOSS, some 100, .stopLossHit 100⟩ ∧
    (should_exit 95 100 90 none).signal = .EXIT_LOSS :=
  ⟨(should_exit_priority 95 100 90 none).1 (by norm_num),
   (should_exit_priority 95 100 90 none).2.2.2.2 (by norm_num) (by norm_num)⟩

/-- C4: `check_breakout` yields `LONG_BREAKOUT` exactly when the range is
set, the bar's local time lies inside `[TRADING_WINDOW_START,
TRADING_WINDOW_END]`, volume is at least the multiplier times the range's
average volume, and the bar high exceeds the range high; in every other case
the signal is `NO_SETUP`, and on `LONG_BREAKOUT` the entry price is the bar's
close (never its high). -/
theorem check_breakout_spec (rng : Option OpeningRange) (bar : Bar)
    (volume_threshold : ℚ) :
    ((check_breakout rng bar volume_threshold).signal = .LONG_BREAKOUT ∨
      (check_breakout rng bar volume_threshold).signal = .NO_SETUP) ∧
    ((check_breakout rng bar volume_threshold).signal = .LONG_BREAKOUT ↔
      ∃ r, rng = some r ∧
        TRADING_WINDOW_START ≤ bar.estHour ∧ bar.estHour ≤ TRADING_WINDOW_END ∧
        ¬ bar.volume < r.avg_volume * volume_threshold ∧
        r.high < bar.high) ∧
    ((check_breakout rng bar volume_threshold).signal = .LONG_BREAKOUT →
      (check_breakout rng bar volume_threshold).entry_price = some bar.close) := by
  cases rng with
  | none =>
      refine ⟨Or.inr rfl, ?_, ?_⟩ <;> simp [check_breakout]
  | some r =>
      by_cases hw : TRADING_WINDOW_START ≤ bar.estHour ∧ bar.estHour ≤ TRADING_WINDOW_END
      · by_cases hv : bar.volume < r.avg_volume * volume_threshold
        · have e : check_breakout (some r) bar volume_threshold
              = ⟨.NO_SETUP, none, .volumeTooLow bar.volume (r.avg_volume * volume_threshold)⟩ := by
            simp [check_breakout, hw, hv]
          refine ⟨Or.inr (by rw [e]), ?_, ?_⟩
          · rw [e]
            constructor
            · intro hcontra
              exact absurd hcontra (by simp)
            · rintro ⟨r', hr', _, _, hvol, _⟩
              cases hr'
              exact (hvol hv).elim
          · rw [e]
            intro h
            cases h
        · by_cases hh : r.high < bar.high
          · have e : check_breakout (some r) bar volume_threshold
                = ⟨.LONG_BREAKOUT, some bar.close,
                    .breakoutAboveRangeHigh r.high bar.close⟩ := by
              simp [check_breakout, hw, hv, hh]
            refine ⟨Or.inl (by rw [e]), ?_, ?_⟩
            · rw [e]
              simp only [true_iff]
              exact ⟨r, rfl, hw.1, hw.2, hv, hh⟩
            · rw [e]
              intro _
              rfl
          · have e : check_breakout (some r) bar volume_threshold
                = ⟨.NO_SETUP, none, .noBreakoutYet⟩ := by
              simp [check_breakout, hw, hv, hh]
            refine ⟨Or.inr (by rw [e]), ?_, ?_⟩
            · rw [e]
              constructor
              · intro hcontra
                exact absurd hcontra (by simp)
              · rintro ⟨r', hr', _, _, _, hhigh⟩
                cases hr'
                exact (hh hhigh).elim
            · rw [e]
              intro h
              cases h
      · have e : check_breakout (some r) bar volume_threshold
            = ⟨.NO_SETUP, none, .outsideTradingWindow⟩ := by
          simp [check_breakout, hw]
        refine ⟨Or.inr (by rw [e]), ?_, ?_⟩
        · rw [e]
          constructor
          · intro hcontra
            exact absurd hcontra (by simp)
          · rintro ⟨r', hr', h1, h2, _, _⟩
            cases hr'
            exact (hw ⟨h1, h2⟩).elim
        · rw [e]
          intro h
          cases h

/-- Witness for C4, the spec's scenario: opening range `[100, 101]` with
average volume 1000; an in-window bar with close 102, high 102.5 and volume
1500 = 1.5 × 1000 triggers `LONG_BREAKOUT` with entry price 102. -/
theorem check_breakout_spec_witness :
    (check_breakout (some ⟨101, 100, 1, 1000⟩) ⟨10, 101, 102.5, 101, 102, 1500⟩
        1.5).signal = .LONG_BREAKOUT ∧
    (check_breakout (some ⟨101, 100, 1, 1000⟩) ⟨10, 101, 102.5, 101, 102, 1500⟩
        1.5).entry_price = some 102 := by
  have h := check_breakout_spec (some ⟨101, 100, 1, 1000⟩)
    ⟨10, 101, 102.5, 101, 102, 1500⟩ 1.5
  have hs : (check_breakout (some ⟨101, 100, 1, 1000⟩)
      ⟨10, 101, 102.5, 101, 102, 1500⟩ 1.5).signal = .LONG_BREAKOUT :=
    h.2.1.mpr ⟨⟨101, 100, 1, 1000⟩, rfl,
      by norm_num [TRADING_WINDOW_START], by norm_num [TRADING_WINDOW_END],
      by norm_num, by norm_num⟩
  exact ⟨hs, h.2.2 hs⟩

/-- C8: `calculate_position_size` returns 0 whenever
`entry_price - stop_loss ≤ 0` and otherwise exactly
`current_capital * 0.02 / (entry_price - stop_loss)` with no further clamp,
a quantity strictly positive for positive capital and linear in the
capital. -/
theorem calculate_position_size_spec (pm : PositionManager)
    (entry_price stop_loss : ℚ) :
    (entry_price - stop_loss ≤ 0 →
      pm.calculate_position_size entry_price stop_loss = 0) ∧
    (0 < entry_price - stop_loss →
      pm.calculate_position_size entry_price stop_loss
          = pm.current_capital * 0.02 / (entry_price - stop_loss) ∧
      (0 < pm.current_capital →
        0 < pm.calculate_position_size entry_price stop_loss) ∧
      ∀ k : ℚ,
        ({ pm with current_capital := k * pm.current_capital }
            : PositionManager).calculate_position_size entry_price stop_loss
          = k * pm.calculate_position_size entry_price stop_loss) := by
  constructor
  · intro h
    simp [PositionManager.calculate_position_size, h]
  · intro h
    have h' : ¬ entry_price - stop_loss ≤ 0 := not_le.mpr h
    refine ⟨by simp [PositionManager.calculate_position_size, h'], fun hc => ?_, fun k => ?_⟩
    · have : (0:ℚ) < pm.current_capital * 0.02 := by positivity
      simp only [PositionManager.calculate_position_size, h', if_false]
      positivity
    · simp only [PositionManager.calculate_position_size, h', if_false]
      ring

/-- Witness for C8, the spec's scenario: capital 40, risk 2%, entry 102,
stop 100 give quantity 0.4. -/
theorem calculate_position_size_spec_witness :
    (PositionManager.init 40).calculate_position_size 102 100 = 0.4 := by
  have h := ((calculate_position_size_spec (PositionManager.init 40) 102 100).2
    (by norm_num)).1
  rw [h]
  norm_num [PositionManager.init]

/-- The trade component of a `close_trade` result is always the mutated
trade, whether or not the removal raised. -/
theorem close_trade_fst (pm : PositionManager) (t : Trade)
    (exit_price : ℚ) (reason : EReason) (exit_time : ℚ) :
    (pm.close_trade t exit_price reason exit_time).1
      = t.close exit_price exit_time reason := by
  by_cases h : t ∈ pm.open_trades <;> simp [PositionManager.close_trade, h]

/-- C10: closing a trade that is not in the open set raises `ValueError` from
the open-set removal instead of silently succeeding; the manager is left
unchanged on that path, but the passed trade's exit fields and pnl have
already been overwritten with this call's values. -/
theorem close_trade_not_open_spec (pm : PositionManager) (t : Trade)
    (exit_price exit_time : ℚ) (reason : EReason)
    (h : t ∉ pm.open_trades) :
    (pm.close_trade t exit_price reason exit_time).2
        = .error "ValueError: list.remove(x): x not in list" ∧
    runOps pm [LedgerOp.closeOp t exit_price reason exit_time] = pm ∧
    (pm.close_trade t exit_price reason exit_time).1
        = { t with
              exit_price := some exit_price
              exit_time := some exit_time
              exit_reason := some reason
              pnl := (exit_price - t.entry_price) * t.quantity
              pnl_pct := (exit_price - t.entry_price) / t.entry_price * 100 } := by
  refine ⟨?_, ?_, ?_⟩
  · simp [PositionManager.close_trade, h]
  · simp [runOps, PositionManager.close_trade, h]
  · rw [close_trade_fst]
    rfl

/-- Witness for C10: closing an already-closed trade against a manager whose
open set is empty. -/
theorem close_trade_not_open_spec_witness :
    ((PositionManager.init 40).close_trade
        ⟨"S", 100, 1, 2, 95, 108, none, none, none, 0, 0⟩ 108 .takeProfit 2).2
      = .error "ValueError: list.remove(x): x not in list" ∧
    runOps (PositionManager.init 40)
        [LedgerOp.closeOp ⟨"S", 100, 1, 2, 95, 108, none, none, none, 0, 0⟩
          108 .takeProfit 2]
      = PositionManager.init 40 ∧
    ((PositionManager.init 40).close_trade
        ⟨"S", 100, 1, 2, 95, 108, none, none, none, 0, 0⟩ 108 .takeProfit 2).1
      = ⟨"S", 100, 1, 2, 95, 108, some 108, some 2, some .takeProfit, 16, 8⟩ := by
  have h := close_trade_not_open_spec (PositionManager.init 40)
    ⟨"S", 100, 1, 2, 95, 108, none, none, none, 0, 0⟩ 108 2 .takeProfit
    (by simp [PositionManager.init])
  refine ⟨h.1, h.2.1, ?_⟩
  rw [h.2.2]
  norm_num

/-- The initial value bounds the high-fold of `calculate_opening_range` from
below. -/
theorem le_foldl_high (l : List Bar) (a : ℚ) :
    a ≤ l.foldl (fun x b => max x b.high) a := by
  induction l generalizing a with
  | nil => exact le_refl a
  | cons b rest ih => exact le_trans (le_max_left a b.high) (ih (max a b.high))

/-- The initial value bounds the low-fold of `calculate_opening_range` from
above. -/
theorem foldl_low_le (l : List Bar) (a : ℚ) :
    l.foldl (fun x b => min x b.low) a ≤ a := by
  induction l generalizing a with
  | nil => exact le_refl a
  | cons b rest ih => exact le_trans (ih (min a b.low)) (min_le_left a b.low)

/-- Any `.ok` result of the replay exit check carries the range it was
given. -/
theorem replay_exit_check_opening_range (seen : List Bar)
    (rng : Option OpeningRange) (pm : PositionManager) (pos : Option Trade)
    (events : List Event) (row : Bar) (st' : ReplayState)
    (h : replay_exit_check seen rng pm pos events row = .ok st') :
    st'.opening_range = rng := by
  cases pos with
  | none =>
      simp only [replay_exit_check] at h
      cases h
      rfl
  | some t =>
      simp only [replay_exit_check] at h
      by_cases hs : (should_exit row.close t.stop_loss t.take_profit none).signal
          = ESignal.HOLD
      · rw [if_neg (not_not_intro hs)] at h
        cases h
        rfl
      · rw [if_pos hs] at h
        cases hc : (pm.close_trade t
            ((should_exit row.close t.stop_loss t.take_profit none).exit_price.getD 0)
            (should_exit row.close t.stop_loss t.take_profit none).reason
            row.estHour).2 with
        | error e =>
            rw [hc] at h
            cases h
        | ok pm2 =>
            rw [hc] at h
            cases h
            rfl

/-- Any `.ok` result of a replay step carries the step's range: the stored
range when already set, otherwise whatever `calculate_opening_range` produced
from the bars so far. -/
theorem replay_step_opening_range (symbol : String) (st : ReplayState)
    (row : Bar) (st' : ReplayState)
    (h : replay_step symbol st row = .ok st') :
    st'.opening_range = replay_rng st row := by
  unfold replay_step at h
  split at h
  · exact replay_exit_check_opening_range _ _ _ _ _ _ _ h
  · split at h
    · cases h
    · exact replay_exit_check_opening_range _ _ _ _ _ _ _ h

/-- C6 counterexample: `calculate_opening_range` itself is not idempotent —
with the range already set from the day's first opening bar, a further direct
call on a longer prefix containing a second opening bar recomputes and
overwrites the stored range. -/
theorem opening_range_recompute_counterexample :
    applyCalcOpeningRange none [⟨9.52, 99, 100, 99, 99.5, 1000⟩]
        = some ⟨100, 99, 1, 1000⟩ ∧
    applyCalcOpeningRange (some ⟨100, 99, 1, 1000⟩)
        [⟨9.52, 99, 100, 99, 99.5, 1000⟩, ⟨9.55, 100, 101, 100, 100.5, 3000⟩]
        = some ⟨101, 99, 2, 2000⟩ ∧
    (⟨100, 99, 1, 1000⟩ : OpeningRange) ≠ ⟨101, 99, 2, 2000⟩ := by
  refine ⟨?_, ?_, ?_⟩ <;>
    norm_num [applyCalcOpeningRange, calculate_opening_range, openingBars,
      List.filter, MARKET_OPEN_EST, TRADING_WINDOW_START, OpeningRange.mk.injEq]

/-- C6 amended: the replay driver guards the call with
`if strategy.opening_range is None`, so within the driver the opening range,
once set for the (symbol, date), is never recomputed or mutated by later bars
of the same date; it is only the unguarded method itself that recomputes. -/
theorem replay_opening_range_immutable (symbol : String) (st st' : ReplayState)
    (row : Bar) (r : OpeningRange)
    (hr : st.opening_range = some r)
    (h : replay_step symbol st row = .ok st') :
    st'.opening_range = some r := by
  rw [replay_step_opening_range symbol st row st' h]
  unfold replay_rng
  rw [hr]

/-- Witness for the C6 amendment: a set range survives a later bar's step. -/
theorem replay_opening_range_immutable_witness :
    ((⟨[⟨9.55, 100, 101, 100, 100.5, 1000⟩, ⟨10.6, 101, 102, 101, 101.5, 2000⟩],
        some ⟨101, 100, 1, 1000⟩, PositionManager.init 40, none, []⟩ :
      ReplayState)).opening_range = some ⟨101, 100, 1, 1000⟩ :=
  replay_opening_range_immutable "S"
    ⟨[⟨9.55, 100, 101, 100, 100.5, 1000⟩], some ⟨101, 100, 1, 1000⟩,
      PositionManager.init 40, none, []⟩
    ⟨[⟨9.55, 100, 101, 100, 100.5, 1000⟩, ⟨10.6, 101, 102, 101, 101.5, 2000⟩],
      some ⟨101, 100, 1, 1000⟩, PositionManager.init 40, none, []⟩
    ⟨10.6, 101, 102, 101, 101.5, 2000⟩ ⟨101, 100, 1, 1000⟩ rfl
    (by norm_num +decide [replay_step, replay_rng, replay_entry,
      replay_exit_check, check_breakout, TRADING_WINDOW_START,
      TRADING_WINDOW_END])

/-- C7 counterexample: a degenerate opening range (`range_width = 0`, here
produced by `calculate_opening_range` from a single flat opening bar) does
not prevent a breakout — a later in-window bar with a higher high and enough
volume still yields `LONG_BREAKOUT`. -/
theorem degenerate_range_breakout_counterexample :
    calculate_opening_range [⟨9.55, 100, 100, 100, 100, 1000⟩]
        = some ⟨100, 100, 0, 1000⟩ ∧
    (check_breakout (some ⟨100, 100, 0, 1000⟩)
        ⟨10, 101, 102, 101, 101.5, 2000⟩ 1.5).signal = .LONG_BREAKOUT := by
  constructor <;>
    norm_num [calculate_opening_range, openingBars, List.filter, check_breakout,
      MARKET_OPEN_EST, TRADING_WINDOW_START, TRADING_WINDOW_END]

/-- C7 amended: every computed opening range over well-formed bars
(`low ≤ high` per bar) has `range_width ≥ 0`, but a zero width does not block
breakouts: `check_breakout` never reads `range_width`, so its result is
independent of it. -/
theorem degenerate_range_amended (bars : List Bar) (r : OpeningRange)
    (hwf : ∀ b ∈ bars, b.low ≤ b.high)
    (h : calculate_opening_range bars = some r) :
    0 ≤ r.range_width ∧
    ∀ (bar : Bar) (volume_threshold w w' : ℚ),
      check_breakout (some { r with range_width := w }) bar volume_threshold
        = check_breakout (some { r with range_width := w' }) bar volume_threshold := by
  constructor
  · cases heq : openingBars bars with
    | nil =>
        unfold calculate_opening_range at h
        rw [heq] at h
        cases h
    | cons b rest =>
        unfold calculate_opening_range at h
        rw [heq] at h
        have hb : b ∈ openingBars bars := by
          rw [heq]
          exact List.mem_cons_self b rest
        have hbbars : b ∈ bars := List.mem_of_mem_filter hb
        have hlh : b.low ≤ b.high := hwf b hbbars
        have h1 : rest.foldl (fun x c => min x c.low) b.low ≤ b.low :=
          foldl_low_le rest b.low
        have h2 : b.high ≤ rest.foldl (fun x c => max x c.high) b.high :=
          le_foldl_high rest b.high
        cases h
        simp only []
        have := le_trans h1 (le_trans hlh h2)
        linarith
  · intro bar volume_threshold w w'
    rfl

/-- Witness for the C7 amendment at a flat single-bar range. -/
theorem degenerate_range_amended_witness :
    0 ≤ (OpeningRange.mk 100 100 0 1000).range_width ∧
    check_breakout (some (OpeningRange.mk 100 100 5 1000))
        ⟨10, 101, 102, 101, 101.5, 2000⟩ 1.5
      = check_breakout (some (OpeningRange.mk 100 100 7 1000))
        ⟨10, 101, 102, 101, 101.5, 2000⟩ 1.5 := by
  have h := degenerate_range_amended [⟨9.55, 100, 100, 100, 100, 1000⟩]
    ⟨100, 100, 0, 1000⟩ (by intro b hb; simp at hb; rw [hb])
    (by norm_num [calculate_opening_range, openingBars, List.filter,
      MARKET_OPEN_EST, TRADING_WINDOW_START])
  exact ⟨h.1, h.2 ⟨10, 101, 102, 101, 101.5, 2000⟩ 1.5 5 7⟩

/-- Inversion of a successful `open_trade`: admission succeeded, the
computed quantity is positive, and the new trade and manager have exactly the
constructed shape. -/
theorem open_trade_ok_inv (pm : PositionManager) (s : String)
    (e sl tp ti : ℚ) (pm' : PositionManager) (t : Trade)
    (h : pm.open_trade s e sl tp ti = .ok (pm', t)) :
    (pm.can_open_trade).1 = true ∧ 0 < t.quantity ∧
    t = ⟨s, e, ti, pm.calculate_position_size e sl, sl, tp,
          none, none, none, 0, 0⟩ ∧
    pm' = { pm with
            open_trades := pm.open_trades ++ [t]
            trades_today := pm.trades_today + 1 } := by
  unfold PositionManager.open_trade at h
  by_cases hc : (pm.can_open_trade).1 = true
  · rw [if_pos hc] at h
    by_cases hsz : pm.calculate_position_size e sl ≤ 0
    · rw [if_pos hsz] at h
      cases h
    · rw [if_neg hsz] at h
      cases h
      exact ⟨hc, lt_of_not_le hsz, rfl, rfl⟩
  · rw [if_neg hc] at h
    cases h

/-- A successful `open_trade` in forward form. -/
theorem open_trade_ok (pm : PositionManager) (s : String) (e sl tp ti : ℚ)
    (hc : (pm.can_open_trade).1 = true)
    (hsz : ¬ pm.calculate_position_size e sl ≤ 0) :
    pm.open_trade s e sl tp ti
      = .ok ({ pm with
               open_trades := pm.open_trades ++
                 [⟨s, e, ti, pm.calculate_position_size e sl, sl, tp,
                   none, none, none, 0, 0⟩]
               trades_today := pm.trades_today + 1 },
             ⟨s, e, ti, pm.calculate_position_size e sl, sl, tp,
               none, none, none, 0, 0⟩) := by
  unfold PositionManager.open_trade
  rw [if_pos hc, if_neg hsz]

/-- Inversion of a successful `close_trade`: the trade was in the open set
and the manager is updated by exactly one application of the trade's pnl. -/
theorem close_trade_ok_inv (pm : PositionManager) (t : Trade) (p : ℚ)
    (r : EReason) (τ : ℚ) (pm' : PositionManager)
    (h : (pm.close_trade t p r τ).2 = .ok pm') :
    t ∈ pm.open_trades ∧
    pm' = { pm with
            open_trades := pm.open_trades.erase t
            closed_trades := pm.closed_trades ++ [t.close p τ r]
            daily_pnl := pm.daily_pnl + (p - t.entry_price) * t.quantity
            current_capital := pm.current_capital + (p - t.entry_price) * t.quantity
            losing_trade_hit :=
              if (p - t.entry_price) * t.quantity < 0 then true
              else pm.losing_trade_hit } := by
  simp only [PositionManager.close_trade, Trade.close] at h
  by_cases hm : t ∈ pm.open_trades
  · rw [if_pos hm] at h
    cases h
    exact ⟨hm, rfl⟩
  · rw [if_neg hm] at h
    cases h

/-- A successful `close_trade` in forward form. -/
theorem close_trade_mem (pm : PositionManager) (t : Trade) (p : ℚ)
    (r : EReason) (τ : ℚ) (hm : t ∈ pm.open_trades) :
    (pm.close_trade t p r τ).2
      = .ok { pm with
              open_trades := pm.open_trades.erase t
              closed_trades := pm.closed_trades ++ [t.close p τ r]
              daily_pnl := pm.daily_pnl + (p - t.entry_price) * t.quantity
              current_capital := pm.current_capital + (p - t.entry_price) * t.quantity
              losing_trade_hit :=
                if (p - t.entry_price) * t.quantity < 0 then true
                else pm.losing_trade_hit } := by
  simp only [PositionManager.close_trade, Trade.close]
  rw [if_pos hm]

/-- The outcomes of a live entry attempt: either no entry and an unchanged
manager, or a successful, admitted, positively-sized `open_trade`. -/
theorem live_entry_cases (symbol : String) (rng : Option OpeningRange)
    (pm : PositionManager) (last_bar : Bar) :
    live_entry symbol rng pm last_bar = (pm, none) ∨
    ∃ pm' t, live_entry symbol rng pm last_bar
        = (pm', some (Event.entered symbol t.entry_price t.quantity
            t.stop_loss t.take_profit)) ∧
      pm.open_trade symbol t.entry_price t.stop_loss t.take_profit 0
        = .ok (pm', t) ∧
      (pm.can_open_trade).1 = true ∧ 0 < t.quantity := by
  by_cases hb : (check_breakout rng last_bar 1.5).signal = BSignal.LONG_BREAKOUT
  · cases hg : pm.get_open_position symbol with
    | some t0 =>
        left
        simp [live_entry, hb, hg]
    | none =>
        by_cases hc : (pm.can_open_trade).1 = true
        · cases hl : calculate_stops_and_targets rng
              ((check_breakout rng last_bar 1.5).entry_price.getD 0) with
          | none =>
              left
              simp [live_entry, hb, hg, hc, hl]
          | some levels =>
              cases ho : pm.open_trade symbol
                  ((check_breakout rng last_bar 1.5).entry_price.getD 0)
                  levels.stop_loss levels.take_profit_conservative 0 with
              | error e =>
                  left
                  simp [live_entry, hb, hg, hc, hl, ho]
              | ok res =>
                  obtain ⟨pm', t⟩ := res
                  right
                  obtain ⟨hcan, hq, ht, hpm⟩ := open_trade_ok_inv _ _ _ _ _ _ _ _ ho
                  refine ⟨pm', t, ?_, ?_, hcan, hq⟩
                  · simp [live_entry, hb, hg, hc, hl, ho]
                  · rw [ht] at ho ⊢
                    exact ho
        · left
          simp [live_entry, hb, hg, hc]
  · left
    simp [live_entry, hb]

/-- C5 counterexample: a volume-confirmed breakout bar whose close sits at or
below the range low yields a non-positive computed size, and the replay
driver lets `open_trade`'s `ValueError` propagate out of the per-bar step,
aborting the whole day. -/
theorem sizing_denial_raises_counterexample :
    replay_day "S" (PositionManager.init 40)
      [⟨9.55, 100, 101, 100, 100.5, 1000⟩, ⟨10, 101, 102, 98, 99, 2000⟩]
      = .error "Position size <= 0" := by
  norm_num +decide [replay_day, replay_step, replay_rng, replay_entry,
    replay_exit_check, check_breakout, applyCalcOpeningRange,
    calculate_opening_range, openingBars, List.filter, List.foldlM, bind,
    Except.bind, pure, Except.pure, calculate_stops_and_targets,
    PositionManager.open_trade, PositionManager.can_open_trade,
    PositionManager.calculate_position_size, PositionManager.init,
    PositionManager.reset_daily_limits, MARKET_OPEN_EST, TRADING_WINDOW_START,
    TRADING_WINDOW_END, MAX_TRADES_PER_DAY, MAX_DAILY_LOSS_PCT]

/-- C5 amended: a kill-switch denial is a normal no-entry outcome in the
replay per-bar step (no exception, state untouched), and the live per-bar
entry either leaves the manager untouched or performs a successful admitted
entry with positive quantity — its `try/except` turns `open_trade`'s
exceptions (in particular non-positive sizing) into "no entry"; only the
replay driver propagates the non-positive-sizing `ValueError`. -/
theorem admission_denial_amended (symbol : String) (stR : ReplayState)
    (stL : LiveState) (row : Bar)
    (hpos : stR.open_position = none)
    (hdeny : (stR.pm.can_open_trade).1 = false) :
    (∃ stR', replay_step symbol stR row = .ok stR' ∧ stR'.pm = stR.pm ∧
      stR'.events = stR.events ∧ stR'.open_position = none) ∧
    ((monitor_symbol symbol stL).pm = stL.pm ∧
        (monitor_symbol symbol stL).events = stL.events ∨
      ∃ pm' t, (monitor_symbol symbol stL).pm = pm' ∧
        stL.pm.open_trade symbol t.entry_price t.stop_loss t.take_profit 0
          = .ok (pm', t) ∧
        (stL.pm.can_open_trade).1 = true ∧ 0 < t.quantity) := by
  constructor
  · have he : replay_entry symbol (replay_rng stR row) stR.pm row
        = .ok (stR.pm, none, none) := by
      unfold replay_entry
      by_cases hb : (check_breakout (replay_rng stR row) row 1.5).signal
          = BSignal.LONG_BREAKOUT
      · rw [if_pos hb, hdeny]
        simp
      · rw [if_neg hb]
    refine ⟨⟨stR.seen ++ [row], replay_rng stR row, stR.pm, none,
        stR.events⟩, ?_, rfl, rfl, rfl⟩
    simp [replay_step, replay_exit_check, hpos, he]
  · cases hl : stL.seen.getLast? with
    | none =>
        refine Or.inl ⟨?_, ?_⟩ <;> simp [monitor_symbol, hl]
    | some last_bar =>
        rcases live_entry_cases symbol
            (match stL.opening_range with
             | some r => some r
             | none => applyCalcOpeningRange none stL.seen) stL.pm last_bar with
          hno | ⟨pm', t, hyes, ho, hcan, hq⟩
        · refine Or.inl ⟨?_, ?_⟩ <;> simp [monitor_symbol, hl, hno]
        · refine Or.inr ⟨pm', t, ?_, ho, hcan, hq⟩
          simp [monitor_symbol, hl, hyes]

/-- Witness for the C5 amendment at a manager already at the two-trade daily
cap, with a fresh live state alongside. -/
theorem admission_denial_amended_witness :
    (∃ stR', replay_step "S"
        ⟨[⟨9.55, 100, 101, 100, 100.5, 1000⟩], some ⟨101, 100, 1, 1000⟩,
          { starting_capital := 40, current_capital := 40, open_trades := [],
            closed_trades := [], trades_today := 2, losing_trade_hit := false,
            daily_pnl := 0 },
          none, []⟩
        ⟨10, 101, 102, 101, 101.5, 2000⟩ = .ok stR' ∧
      stR'.pm = { starting_capital := 40, current_capital := 40,
                  open_trades := [], closed_trades := [], trades_today := 2,
                  losing_trade_hit := false, daily_pnl := 0 } ∧
      stR'.events = [] ∧ stR'.open_position = none) ∧
    ((monitor_symbol "S" ⟨[], none, PositionManager.init 40, [], false⟩).pm
          = PositionManager.init 40 ∧
        (monitor_symbol "S" ⟨[], none, PositionManager.init 40, [], false⟩).events
          = [] ∨
      ∃ pm' t, (monitor_symbol "S"
            ⟨[], none, PositionManager.init 40, [], false⟩).pm = pm' ∧
        (PositionManager.init 40).open_trade "S" t.entry_price t.stop_loss
            t.take_profit 0 = .ok (pm', t) ∧
        ((PositionManager.init 40).can_open_trade).1 = true ∧
        0 < t.quantity) :=
  admission_denial_amended "S"
    ⟨[⟨9.55, 100, 101, 100, 100.5, 1000⟩], some ⟨101, 100, 1, 1000⟩,
      { starting_capital := 40, current_capital := 40, open_trades := [],
        closed_trades := [], trades_today := 2, losing_trade_hit := false,
        daily_pnl := 0 },
      none, []⟩
    ⟨[], none, PositionManager.init 40, [], false⟩
    ⟨10, 101, 102, 101, 101.5, 2000⟩ rfl
    (by norm_num [PositionManager.can_open_trade, MAX_TRADES_PER_DAY])

/-- The balanced-ledger predicate: capital equals starting capital plus the
realized pnl of the closed set, and every closed trade's pnl is
`(exit - entry) * quantity` at its recorded exit price. -/
def ledgerBalanced (pm : PositionManager) : Prop :=
  pm.current_capital
      = pm.starting_capital + (pm.closed_trades.map Trade.pnl).sum ∧
  ∀ t ∈ pm.closed_trades,
    ∃ ep, t.exit_price = some ep ∧ t.pnl = (ep - t.entry_price) * t.quantity

/-- A successful `open_trade` does not touch the ledger. -/
theorem ledgerBalanced_open (pm pm' : PositionManager) (s : String)
    (e sl tp ti : ℚ) (t : Trade)
    (h : pm.open_trade s e sl tp ti = .ok (pm', t))
    (hb : ledgerBalanced pm) : ledgerBalanced pm' := by
  obtain ⟨-, -, -, hpm⟩ := open_trade_ok_inv _ _ _ _ _ _ _ _ h
  rw [hpm]
  exact hb

/-- A successful `close_trade` adds the closed trade's pnl to the capital and
to the closed set simultaneously, keeping the ledger balanced. -/
theorem ledgerBalanced_close (pm pm' : PositionManager) (t : Trade) (p : ℚ)
    (r : EReason) (τ : ℚ)
    (h : (pm.close_trade t p r τ).2 = .ok pm')
    (hb : ledgerBalanced pm) : ledgerBalanced pm' := by
  obtain ⟨-, hpm⟩ := close_trade_ok_inv _ _ _ _ _ _ h
  rw [hpm]
  constructor
  · simp only [List.map_append, List.sum_append, List.map_cons, List.map_nil,
      List.sum_cons, List.sum_nil]
    have : (t.close p τ r).pnl = (p - t.entry_price) * t.quantity := rfl
    rw [this, hb.1]
    ring
  · intro u hu
    rw [List.mem_append] at hu
    cases hu with
    | inl hu => exact hb.2 u hu
    | inr hu =>
        rw [List.mem_singleton] at hu
        subst hu
        exact ⟨p, rfl, rfl⟩

/-- `runOps` preserves the balanced ledger (raising calls leave the manager
unchanged). -/
theorem ledgerBalanced_runOps (ops : List LedgerOp) (pm : PositionManager)
    (hb : ledgerBalanced pm) : ledgerBalanced (runOps pm ops) := by
  induction ops generalizing pm with
  | nil => exact hb
  | cons op rest ih =>
      cases op with
      | openOp s e sl tp ti =>
          cases ho : pm.open_trade s e sl tp ti with
          | error msg =>
              simp only [runOps, ho]
              exact ih pm hb
          | ok res =>
              obtain ⟨pm', t⟩ := res
              simp only [runOps, ho]
              exact ih pm' (ledgerBalanced_open pm pm' s e sl tp ti t ho hb)
      | closeOp tr p r τ =>
          cases hc : (pm.close_trade tr p r τ).2 with
          | error msg =>
              simp only [runOps, hc]
              exact ih pm hb
          | ok pm' =>
              simp only [runOps, hc]
              exact ih pm' (ledgerBalanced_close pm pm' tr p r τ hc hb)

/-- No engine call changes `starting_capital`. -/
theorem runOps_starting_capital (ops : List LedgerOp) (pm : PositionManager) :
    (runOps pm ops).starting_capital = pm.starting_capital := by
  induction ops generalizing pm with
  | nil => rfl
  | cons op rest ih =>
      cases op with
      | openOp s e sl tp ti =>
          cases ho : pm.open_trade s e sl tp ti with
          | error msg =>
              simp only [runOps, ho]
              exact ih pm
          | ok res =>
              obtain ⟨pm', t⟩ := res
              obtain ⟨-, -, -, hpm⟩ := open_trade_ok_inv _ _ _ _ _ _ _ _ ho
              simp only [runOps, ho]
              rw [ih pm', hpm]
      | closeOp tr p r τ =>
          cases hc : (pm.close_trade tr p r τ).2 with
          | error msg =>
              simp only [runOps, hc]
              exact ih pm
          | ok pm' =>
              obtain ⟨-, hpm⟩ := close_trade_ok_inv _ _ _ _ _ _ hc
              simp only [runOps, hc]
              rw [ih pm', hpm]

/-- C1: for every sequence of `open_trade`/`close_trade` calls on a fresh
manager, the capital ledger stays balanced — after each call (in particular
after each `close_trade`) `current_capital` equals the starting capital plus
the summed pnl of all closed trades, and each closed trade's pnl is
`(exit_price - entry_price) * quantity`. -/
theorem capital_ledger_invariant (sc : ℚ) (ops : List LedgerOp) :
    (runOps (PositionManager.init sc) ops).current_capital
      = sc + ((runOps (PositionManager.init sc) ops).closed_trades.map
          Trade.pnl).sum ∧
    ∀ t ∈ (runOps (PositionManager.init sc) ops).closed_trades,
      ∃ ep, t.exit_price = some ep ∧
        t.pnl = (ep - t.entry_price) * t.quantity := by
  have hinit : ledgerBalanced (PositionManager.init sc) := by
    constructor
    · simp [PositionManager.init]
    · intro t ht
      simp [PositionManager.init] at ht
  have h := ledgerBalanced_runOps ops (PositionManager.init sc) hinit
  refine ⟨?_, h.2⟩
  have hs := runOps_starting_capital ops (PositionManager.init sc)
  rw [h.1, hs]
  rfl

/-- The open set induced by the driver's `open_position` local. -/
def posList : Option Trade → List Trade
  | some t => [t]
  | none => []

/-- Driver coherence: the engine's open set is exactly the driver's tracked
position. -/
def replayStateInv (st : ReplayState) : Prop :=
  st.pm.open_trades = posList st.open_position

/-- Full case analysis of a successful replay entry attempt. -/
theorem replay_entry_cases (symbol : String) (rng : Option OpeningRange)
    (pm : PositionManager) (row : Bar)
    (res : PositionManager × Option Trade × Option Event)
    (h : replay_entry symbol rng pm row = .ok res) :
    (res = (pm, none, none) ∧
      ((check_breakout rng row 1.5).signal ≠ .LONG_BREAKOUT ∨
        (pm.can_open_trade).1 = false)) ∨
    ∃ pm' t levels,
      (check_breakout rng row 1.5).signal = .LONG_BREAKOUT ∧
      (pm.can_open_trade).1 = true ∧
      calculate_stops_and_targets rng
          ((check_breakout rng row 1.5).entry_price.getD 0) = some levels ∧
      pm.open_trade symbol ((check_breakout rng row 1.5).entry_price.getD 0)
          levels.stop_loss levels.take_profit_conservative row.estHour
        = .ok (pm', t) ∧
      res = (pm', some t,
        some (Event.entered symbol t.entry_price t.quantity
          t.stop_loss t.take_profit)) := by
  by_cases hb : (check_breakout rng row 1.5).signal = BSignal.LONG_BREAKOUT
  · by_cases hc : (pm.can_open_trade).1 = true
    · cases hl : calculate_stops_and_targets rng
          ((check_breakout rng row 1.5).entry_price.getD 0) with
      | none =>
          simp only [replay_entry, if_pos hb, if_pos hc, hl] at h
          cases h
      | some levels =>
          cases ho : pm.open_trade symbol
              ((check_breakout rng row 1.5).entry_price.getD 0)
              levels.stop_loss levels.take_profit_conservative row.estHour with
          | error e =>
              simp only [replay_entry, if_pos hb, if_pos hc, hl, ho] at h
              cases h
          | ok pr =>
              obtain ⟨pm', t⟩ := pr
              simp only [replay_entry, if_pos hb, if_pos hc, hl, ho] at h
              injection h with h2
              right
              exact ⟨pm', t, levels, hb, hc, rfl, ho, h2.symm⟩
    · simp only [replay_entry, if_pos hb, if_neg hc] at h
      cases h
      exact Or.inl ⟨rfl, Or.inr (by simpa using hc)⟩
  · simp only [replay_entry, if_neg hb] at h
    cases h
    exact Or.inl ⟨rfl, Or.inl hb⟩

/-- Full case analysis of a successful replay exit check. -/
theorem replay_exit_check_cases (seen : List Bar) (rng : Option OpeningRange)
    (pm : PositionManager) (pos : Option Trade) (events : List Event)
    (row : Bar) (st' : ReplayState)
    (h : replay_exit_check seen rng pm pos events row = .ok st') :
    (pos = none ∧ st' = ⟨seen, rng, pm, none, events⟩) ∨
    (∃ t, pos = some t ∧
      (should_exit row.close t.stop_loss t.take_profit none).signal
        = .HOLD ∧
      st' = ⟨seen, rng, pm, some t, events⟩) ∨
    (∃ t pm2, pos = some t ∧
      ¬ (should_exit row.close t.stop_loss t.take_profit none).signal
          = .HOLD ∧
      (pm.close_trade t
          ((should_exit row.close t.stop_loss t.take_profit none).exit_price.getD 0)
          (should_exit row.close t.stop_loss t.take_profit none).reason
          row.estHour).2 = .ok pm2 ∧
      st' = ⟨seen, rng, pm2, none,
        events ++ [Event.exited
          ((should_exit row.close t.stop_loss t.take_profit none).exit_price.getD 0)
          (should_exit row.close t.stop_loss t.take_profit none).reason]⟩) := by
  cases pos with
  | none =>
      simp only [replay_exit_check] at h
      cases h
      exact Or.inl ⟨rfl, rfl⟩
  | some t =>
      simp only [replay_exit_check] at h
      by_cases hs : (should_exit row.close t.stop_loss t.take_profit none).signal
          = ESignal.HOLD
      · rw [if_neg (not_not_intro hs)] at h
        cases h
        exact Or.inr (Or.inl ⟨t, rfl, hs, rfl⟩)
      · rw [if_pos hs] at h
        cases hc : (pm.close_trade t
            ((should_exit row.close t.stop_loss t.take_profit none).exit_price.getD 0)
            (should_exit row.close t.stop_loss t.take_profit none).reason
            row.estHour).2 with
        | error e =>
            rw [hc] at h
            cases h
        | ok pm2 =>
            rw [hc] at h
            cases h
            exact Or.inr (Or.inr ⟨t, pm2, rfl, hs, hc, rfl⟩)

/-- A successful replay step takes apart into an entry phase followed by an
exit phase. -/
theorem replay_step_cases (symbol : String) (st : ReplayState) (row : Bar)
    (st' : ReplayState) (h : replay_step symbol st row = .ok st') :
    (∃ t, st.open_position = some t ∧
      replay_exit_check (st.seen ++ [row]) (replay_rng st row) st.pm (some t)
        st.events row = .ok st') ∨
    (∃ pm1 pos1 ev1, st.open_position = none ∧
      replay_entry symbol (replay_rng st row) st.pm row = .ok (pm1, pos1, ev1) ∧
      replay_exit_check (st.seen ++ [row]) (replay_rng st row) pm1 pos1
        (st.events ++ ev1.toList) row = .ok st') := by
  cases hop : st.open_position with
  | some t =>
      left
      refine ⟨t, rfl, ?_⟩
      unfold replay_step at h
      rw [hop] at h
      exact h
  | none =>
      right
      unfold replay_step at h
      rw [hop] at h
      cases he : replay_entry symbol (replay_rng st row) st.pm row with
      | error e =>
          rw [he] at h
          cases h
      | ok res =>
          obtain ⟨pm1, pos1, ev1⟩ := res
          refine ⟨pm1, pos1, ev1, rfl, rfl, ?_⟩
          rw [he] at h
          exact h

/-- The replay step preserves driver coherence. -/
theorem replay_step_inv (symbol : String) (st : ReplayState) (row : Bar)
    (st' : ReplayState) (h : replay_step symbol st row = .ok st')
    (hinv : replayStateInv st) : replayStateInv st' := by
  rcases replay_step_cases symbol st row st' h with
    ⟨t, hop, hex⟩ | ⟨pm1, pos1, ev1, hop, hen, hex⟩
  · rcases replay_exit_check_cases _ _ _ _ _ _ _ hex with
      ⟨hcontra, _⟩ | ⟨t', heq, _, hst'⟩ | ⟨t', pm2, heq, _, hc, hst'⟩
    · cases hcontra
    · cases heq
      rw [hst']
      unfold replayStateInv at hinv ⊢
      rw [hop] at hinv
      exact hinv
    · cases heq
      obtain ⟨hmem, hpm2⟩ := close_trade_ok_inv _ _ _ _ _ _ hc
      rw [hst']
      unfold replayStateInv at hinv ⊢
      rw [hop] at hinv
      simp only [hpm2, posList]
      rw [hinv]
      simp [posList]
  · rcases replay_entry_cases _ _ _ _ _ hen with
      ⟨hres, _⟩ | ⟨pm', t, levels, _, _, _, ho, hres⟩
    · cases hres
      rcases replay_exit_check_cases _ _ _ _ _ _ _ hex with
        ⟨_, hst'⟩ | ⟨t', heq, _, hst'⟩ | ⟨t', pm2, heq, _, hc, hst'⟩
      · rw [hst']
        unfold replayStateInv at hinv ⊢
        rw [hop] at hinv
        exact hinv
      · cases heq
      · cases heq
    · cases hres
      obtain ⟨-, -, -, hpm'⟩ := open_trade_ok_inv _ _ _ _ _ _ _ _ ho
      unfold replayStateInv at hinv
      rw [hop] at hinv
      rcases replay_exit_check_cases _ _ _ _ _ _ _ hex with
        ⟨hcontra, _⟩ | ⟨t', heq, _, hst'⟩ | ⟨t', pm2, heq, _, hc, hst'⟩
      · cases hcontra
      · cases heq
        rw [hst']
        unfold replayStateInv
        simp only [hpm', posList, hinv]
        simp
      · cases heq
        obtain ⟨hmem, hpm2⟩ := close_trade_ok_inv _ _ _ _ _ _ hc
        rw [hst']
        unfold replayStateInv
        simp only [hpm2, hpm', posList, hinv]
        simp

/-- The seen-bar trace of a successful replay step grows by the bar. -/
theorem replay_step_seen (symbol : String) (st : ReplayState) (row : Bar)
    (st' : ReplayState) (h : replay_step symbol st row = .ok st') :
    st'.seen = st.seen ++ [row] := by
  rcases replay_step_cases symbol st row st' h with
    ⟨t, _, hex⟩ | ⟨pm1, pos1, ev1, _, _, hex⟩ <;>
  · rcases replay_exit_check_cases _ _ _ _ _ _ _ hex with
      ⟨_, hst'⟩ | ⟨t', _, _, hst'⟩ | ⟨t', pm2, _, _, _, hst'⟩ <;>
    · rw [hst']

/-- Invariants carried through a successful `foldlM` over `Except`. -/
theorem foldlM_ok_invariant {σ α : Type} (P : σ → Prop)
    (f : σ → α → Except String σ)
    (hf : ∀ s a s', f s a = .ok s' → P s → P s') :
    ∀ (l : List α) (s0 s1 : σ), l.foldlM f s0 = .ok s1 → P s0 → P s1 := by
  intro l
  induction l with
  | nil =>
      intro s0 s1 h hp
      rw [List.foldlM_nil] at h
      cases h
      exact hp
  | cons a rest ih =>
      intro s0 s1 h hp
      rw [List.foldlM_cons] at h
      cases hf0 : f s0 a with
      | error e =>
          rw [hf0] at h
          cases h
      | ok s' =>
          rw [hf0] at h
          simp only [bind, Except.bind] at h
          exact ih s' s1 h (hf s0 a s' hf0 hp)

/-- A successful replay fold accumulates exactly the processed bars. -/
theorem replay_fold_seen (symbol : String) (l : List Bar)
    (s0 s1 : ReplayState) (h : l.foldlM (replay_step symbol) s0 = .ok s1) :
    s1.seen = s0.seen ++ l := by
  induction l generalizing s0 with
  | nil =>
      rw [List.foldlM_nil] at h
      cases h
      simp
  | cons a rest ih =>
      rw [List.foldlM_cons] at h
      cases hf0 : replay_step symbol s0 a with
      | error e =>
          rw [hf0] at h
          cases h
      | ok s' =>
          rw [hf0] at h
          simp only [bind, Except.bind] at h
          rw [ih s' h, replay_step_seen symbol s0 a s' hf0]
          simp

/-- C9: for every replayed trading date (any carried-over manager with an
empty open set), if the day's bar loop succeeds leaving a position open, the
replay driver force-closes it at the day's last bar close with reason
`"End of day"`, emptying the open set and applying the close to the capital
exactly once. -/
theorem end_of_day_liquidation (symbol : String) (pm0 : PositionManager)
    (bars : List Bar) (st : ReplayState) (pos : Trade) (lastBar : Bar)
    (hopen0 : pm0.open_trades = [])
    (hfold : bars.foldlM (replay_step symbol)
        ⟨[], none, pm0.reset_daily_limits, none, []⟩ = .ok st)
    (hpos : st.open_position = some pos)
    (hlast : st.seen.getLast? = some lastBar) :
    pos ∈ st.pm.open_trades ∧
    st.pm.open_trades.erase pos = [] ∧
    replay_day symbol pm0 bars = .ok
      { st with
          pm := { st.pm with
                  open_trades := st.pm.open_trades.erase pos
                  closed_trades := st.pm.closed_trades ++
                    [pos.close lastBar.close lastBar.estHour .endOfDay]
                  daily_pnl := st.pm.daily_pnl +
                    (lastBar.close - pos.entry_price) * pos.quantity
                  current_capital := st.pm.current_capital +
                    (lastBar.close - pos.entry_price) * pos.quantity
                  losing_trade_hit :=
                    if (lastBar.close - pos.entry_price) * pos.quantity < 0
                    then true else st.pm.losing_trade_hit }
          open_position := none
          events := st.events ++ [Event.exited lastBar.close .endOfDay] } := by
  have hinv0 : replayStateInv ⟨[], none, pm0.reset_daily_limits, none, []⟩ := by
    unfold replayStateInv posList PositionManager.reset_daily_limits
    exact hopen0
  have hinv := foldlM_ok_invariant replayStateInv (replay_step symbol)
    (fun s a s' hs hp => replay_step_inv symbol s a s' hs hp) bars _ st
    hfold hinv0
  unfold replayStateInv at hinv
  rw [hpos] at hinv
  have hlist : st.pm.open_trades = [pos] := hinv
  have hmem : pos ∈ st.pm.open_trades := by
    rw [hlist]
    exact List.mem_singleton_self pos
  have herase : st.pm.open_trades.erase pos = [] := by
    rw [hlist]
    exact List.erase_cons_head pos []
  refine ⟨hmem, herase, ?_⟩
  simp only [replay_day, hfold, bind, Except.bind, hpos, hlast,
    close_trade_mem st.pm pos lastBar.close EReason.endOfDay lastBar.estHour hmem,
    pure, Except.pure]

/-- Witness for C9: a day whose breakout entry (bar close 101.5, quantity
8/15) is still open at the last bar is force-closed at that close with
reason `"End of day"`, capital reflecting the close exactly once. -/
theorem end_of_day_liquidation_witness :
    (replay_day "S" (PositionManager.init 40)
        [⟨9.55, 100, 101, 100, 100.5, 1000⟩,
         ⟨10, 101, 102, 101, 101.5, 2000⟩]).map
      (fun st => (st.events, st.pm.current_capital, st.pm.open_trades))
    = .ok ([Event.entered "S" 101.5 (8/15) 100 109.62,
            Event.exited 101.5 .endOfDay], 40, []) := by
  have h := end_of_day_liquidation "S" (PositionManager.init 40)
    [⟨9.55, 100, 101, 100, 100.5, 1000⟩, ⟨10, 101, 102, 101, 101.5, 2000⟩]
    ⟨[⟨9.55, 100, 101, 100, 100.5, 1000⟩, ⟨10, 101, 102, 101, 101.5, 2000⟩],
      some ⟨101, 100, 1, 1000⟩,
      ⟨40, 40, [⟨"S", 101.5, 10, 8/15, 100, 109.62, none, none, none, 0, 0⟩],
        [], 1, false, 0⟩,
      some ⟨"S", 101.5, 10, 8/15, 100, 109.62, none, none, none, 0, 0⟩,
      [Event.entered "S" 101.5 (8/15) 100 109.62]⟩
    ⟨"S", 101.5, 10, 8/15, 100, 109.62, none, none, none, 0, 0⟩
    ⟨10, 101, 102, 101, 101.5, 2000⟩
    rfl
    (by norm_num +decide [List.foldlM, bind, Except.bind, pure, Except.pure,
      replay_step, replay_rng, replay_entry, replay_exit_check, check_breakout,
      applyCalcOpeningRange, calculate_opening_range, openingBars, List.filter,
      calculate_stops_and_targets, should_exit, PositionManager.open_trade,
      PositionManager.can_open_trade, PositionManager.calculate_position_size,
      PositionManager.init, PositionManager.reset_daily_limits,
      MARKET_OPEN_EST, TRADING_WINDOW_START, TRADING_WINDOW_END,
      MAX_TRADES_PER_DAY, MAX_DAILY_LOSS_PCT])
    rfl
    (by simp)
  rw [h.2.2]
  have herase := h.2.1
  simp only [Except.map]
  norm_num [herase, Trade.close]

/-- The kind of an exit decision, independent of the driver-specific reason
string. -/
inductive ExitKind
  | loss
  | profit
  | dayEnd
  | other
  deriving DecidableEq, Repr

/-- Reason strings collapsed to their decision kind: the replay driver's
formatted strings and the live driver's plain strings describe the same
decisions. -/
def EReason.kind : EReason → ExitKind
  | .stopLossHit _ => .loss
  | .stopLoss => .loss
  | .takeProfitHit _ => .profit
  | .takeProfit => .profit
  | .trailingStopAt _ => .profit
  | .endOfDay => .dayEnd
  | .marketClose => .dayEnd
  | .noExitCondition => .other

/-- A decision with its reason string erased to the decision kind. -/
inductive EventCore
  | enteredCore (symbol : String) (price quantity stop_loss take_profit : ℚ)
  | exitedCore (price : ℚ) (kind : ExitKind)
  deriving DecidableEq, Repr

/-- Reason-string erasure on events. -/
def Event.core : Event → EventCore
  | .entered s p q sl tp => .enteredCore s p q sl tp
  | .exited p r => .exitedCore p r.kind

/-- A trade with its wall-clock-dependent timestamps dropped and its exit
reason collapsed to the decision kind. -/
structure TradeCore where
  symbol : String
  entry_price : ℚ
  quantity : ℚ
  stop_loss : ℚ
  take_profit : ℚ
  exit_price : Option ℚ
  pnl : ℚ
  pnl_pct : ℚ
  exit_kind : Option ExitKind
  deriving DecidableEq, Repr

/-- Timestamp/reason-string erasure on trades. -/
def Trade.core (t : Trade) : TradeCore :=
  ⟨t.symbol, t.entry_price, t.quantity, t.stop_loss, t.take_profit,
    t.exit_price, t.pnl, t.pnl_pct, t.exit_reason.map EReason.kind⟩

/-- Manager equivalence up to trade timestamps and reason strings. -/
def pmEquiv (p q : PositionManager) : Prop :=
  p.starting_capital = q.starting_capital ∧
  p.current_capital = q.current_capital ∧
  p.open_trades.map Trade.core = q.open_trades.map Trade.core ∧
  p.closed_trades.map Trade.core = q.closed_trades.map Trade.core ∧
  p.trades_today = q.trades_today ∧
  p.losing_trade_hit = q.losing_trade_hit ∧
  p.daily_pnl = q.daily_pnl

theorem pmEquiv_refl (p : PositionManager) : pmEquiv p p :=
  ⟨rfl, rfl, rfl, rfl, rfl, rfl, rfl⟩

/-- Admission reads only fields preserved by `pmEquiv`. -/
theorem can_open_trade_congr (p q : PositionManager) (h : pmEquiv p q) :
    (p.can_open_trade).1 = (q.can_open_trade).1 := by
  obtain ⟨h1, -, -, -, h5, h6, h7⟩ := h
  unfold PositionManager.can_open_trade
  rw [h1, h5, h6, h7]

/-- Sizing reads only the capital, preserved by `pmEquiv`. -/
theorem calculate_position_size_congr (p q : PositionManager)
    (h : pmEquiv p q) (e sl : ℚ) :
    p.calculate_position_size e sl = q.calculate_position_size e sl := by
  unfold PositionManager.calculate_position_size
  rw [h.2.1]

/-- An in-window bar is not an opening-window bar. -/
theorem openingBars_append_in_window (l : List Bar) (b : Bar)
    (hb : TRADING_WINDOW_START ≤ b.estHour) :
    openingBars (l ++ [b]) = openingBars l := by
  unfold openingBars
  rw [List.filter_append]
  have : (decide (MARKET_OPEN_EST ≤ b.estHour) &&
      decide (b.estHour < TRADING_WINDOW_START)) = false := by
    have : ¬ b.estHour < TRADING_WINDOW_START := not_lt.mpr hb
    simp [this]
  simp [List.filter, this]

/-- The computed opening range only depends on the opening-window bars. -/
theorem calculate_opening_range_congr (l l' : List Bar)
    (h : openingBars l = openingBars l') :
    calculate_opening_range l = calculate_opening_range l' := by
  unfold calculate_opening_range
  rw [h]

/-- Appending an in-window bar never changes the computed opening range. -/
theorem calculate_opening_range_append (l : List Bar) (b : Bar)
    (hb : TRADING_WINDOW_START ≤ b.estHour) :
    calculate_opening_range (l ++ [b]) = calculate_opening_range l :=
  calculate_opening_range_congr _ _ (openingBars_append_in_window l b hb)

/-- With an empty open set there is no open position for any symbol. -/
theorem get_open_position_nil (pm : PositionManager) (symbol : String)
    (h : pm.open_trades = []) : pm.get_open_position symbol = none := by
  unfold PositionManager.get_open_position
  rw [h]
  rfl

/-- A singleton open set for the symbol is found. -/
theorem get_open_position_singleton (pm : PositionManager) (symbol : String)
    (u : Trade) (h : pm.open_trades = [u]) (hs : u.symbol = symbol) :
    pm.get_open_position symbol = some u := by
  unfold PositionManager.get_open_position
  rw [h]
  simp [List.find?, hs]

/-- C2 counterexample: on a day with two opening-range bars, the replay
driver locks the range at the day's first bar alone (high 100, average
volume 1000) and enters on the later breakout bar, while the live driver
first computes the range at its first in-window poll from all bars so far
(high 101, average volume 2000) and rejects the same bar for low volume —
the per-bar decisions differ (an entry and a forced close versus nothing),
even with reason strings erased. -/
theorem replay_live_divergence_counterexample :
    (replay_day "S" (PositionManager.init 40)
        [⟨9.52, 99, 100, 99, 99.5, 1000⟩, ⟨9.55, 100, 101, 100, 100.5, 3000⟩,
         ⟨10, 101, 102, 101, 101.5, 2000⟩]).map
      (fun st => st.events.map Event.core)
      = .ok [EventCore.enteredCore "S" 101.5 (8/25) 99 109.62,
             EventCore.exitedCore 101.5 .dayEnd] ∧
    (live_day "S" (PositionManager.init 40)
        [⟨9.52, 99, 100, 99, 99.5, 1000⟩, ⟨9.55, 100, 101, 100, 100.5, 3000⟩,
         ⟨10, 101, 102, 101, 101.5, 2000⟩]).map
      (fun st => st.events.map Event.core)
      = .ok [] := by
  constructor
  · norm_num +decide [replay_day, replay_step, replay_rng, replay_entry,
      replay_exit_check, check_breakout, applyCalcOpeningRange,
      calculate_opening_range, openingBars, List.filter, List.foldlM, bind,
      Except.bind, pure, Except.pure, Except.map, calculate_stops_and_targets,
      should_exit, Trade.close, PositionManager.open_trade,
      PositionManager.close_trade, PositionManager.can_open_trade,
      PositionManager.calculate_position_size, PositionManager.init,
      PositionManager.reset_daily_limits, Event.core, EReason.kind,
      MARKET_OPEN_EST, TRADING_WINDOW_START, TRADING_WINDOW_END,
      MAX_TRADES_PER_DAY, MAX_DAILY_LOSS_PCT]
  · norm_num +decide [live_day, live_step, monitor_symbol,
      monitor_open_positions, live_entry, live_exit_trade, check_breakout,
      applyCalcOpeningRange, calculate_opening_range, openingBars, List.filter,
      List.foldl, List.foldlM, List.getLast?, bind, Except.bind, pure,
      Except.pure, Except.map, calculate_stops_and_targets, should_exit,
      Trade.close, PositionManager.open_trade, PositionManager.close_trade,
      PositionManager.can_open_trade, PositionManager.calculate_position_size,
      PositionManager.get_open_position, PositionManager.init,
      PositionManager.reset_daily_limits, Event.core, EReason.kind,
      MARKET_OPEN_EST, TRADING_WINDOW_START, TRADING_WINDOW_END,
      MAX_TRADES_PER_DAY, MAX_DAILY_LOSS_PCT]

/-- A successful `open_trade` transports across `pmEquiv`, with any entry
timestamps: the live engine admits and sizes the same entry. -/
theorem open_trade_equiv (p q : PositionManager) (hpq : pmEquiv p q)
    (s : String) (e sl tp ti ti' : ℚ) (p' : PositionManager) (t : Trade)
    (h : p.open_trade s e sl tp ti = .ok (p', t)) :
    ∃ q' t', q.open_trade s e sl tp ti' = .ok (q', t') ∧
      pmEquiv p' q' ∧ t'.core = t.core := by
  obtain ⟨hc, hqty, ht, hp'⟩ := open_trade_ok_inv _ _ _ _ _ _ _ _ h
  have hcq : (q.can_open_trade).1 = true := by
    rw [← can_open_trade_congr p q hpq]
    exact hc
  have hsz : q.calculate_position_size e sl = p.calculate_position_size e sl :=
    (calculate_position_size_congr p q hpq e sl).symm
  have hppos : 0 < p.calculate_position_size e sl := by
    rw [ht] at hqty
    exact hqty
  have hszpos : ¬ q.calculate_position_size e sl ≤ 0 := by
    rw [hsz]
    exact not_le.mpr hppos
  refine ⟨_, _, open_trade_ok q s e sl tp ti' hcq hszpos, ?_, ?_⟩
  · rw [hp']
    obtain ⟨h1, h2, h3, h4, h5, h6, h7⟩ := hpq
    refine ⟨h1, h2, ?_, h4, by rw [h5], h6, h7⟩
    rw [List.map_append, List.map_append, h3, ht]
    simp [Trade.core, hsz]
  · rw [ht]
    simp [Trade.core, hsz]

/-- A successful `close_trade` of core-equal singleton positions transports
across `pmEquiv`, for any exit reasons of the same kind and any exit
timestamps. -/
theorem close_trade_equiv (p q : PositionManager) (hpq : pmEquiv p q)
    (t u : Trade) (hcore : u.core = t.core)
    (price : ℚ) (rp rl : EReason) (τ τ' : ℚ)
    (hp : p.open_trades = [t]) (hq : q.open_trades = [u]) :
    (p.close_trade t price rp τ).2
        = .ok { p with
                open_trades := p.open_trades.erase t
                closed_trades := p.closed_trades ++ [t.close price τ rp]
                daily_pnl := p.daily_pnl + (price - t.entry_price) * t.quantity
                current_capital :=
                  p.current_capital + (price - t.entry_price) * t.quantity
                losing_trade_hit :=
                  if (price - t.entry_price) * t.quantity < 0 then true
                  else p.losing_trade_hit } ∧
    (q.close_trade u price rl τ').2
        = .ok { q with
                open_trades := q.open_trades.erase u
                closed_trades := q.closed_trades ++ [u.close price τ' rl]
                daily_pnl := q.daily_pnl + (price - u.entry_price) * u.quantity
                current_capital :=
                  q.current_capital + (price - u.entry_price) * u.quantity
                losing_trade_hit :=
                  if (price - u.entry_price) * u.quantity < 0 then true
                  else q.losing_trade_hit } ∧
    (EReason.kind rl = EReason.kind rp →
      pmEquiv
        { p with
          open_trades := p.open_trades.erase t
          closed_trades := p.closed_trades ++ [t.close price τ rp]
          daily_pnl := p.daily_pnl + (price - t.entry_price) * t.quantity
          current_capital :=
            p.current_capital + (price - t.entry_price) * t.quantity
          losing_trade_hit :=
            if (price - t.entry_price) * t.quantity < 0 then true
            else p.losing_trade_hit }
        { q with
          open_trades := q.open_trades.erase u
          closed_trades := q.closed_trades ++ [u.close price τ' rl]
          daily_pnl := q.daily_pnl + (price - u.entry_price) * u.quantity
          current_capital :=
            q.current_capital + (price - u.entry_price) * u.quantity
          losing_trade_hit :=
            if (price - u.entry_price) * u.quantity < 0 then true
            else q.losing_trade_hit }) := by
  have hmp : t ∈ p.open_trades := by
    rw [hp]
    exact List.mem_singleton_self t
  have hmq : u ∈ q.open_trades := by
    rw [hq]
    exact List.mem_singleton_self u
  have he : u.entry_price = t.entry_price := congrArg TradeCore.entry_price hcore
  have hqty : u.quantity = t.quantity := congrArg TradeCore.quantity hcore
  have hsym : u.symbol = t.symbol := congrArg TradeCore.symbol hcore
  have hsl : u.stop_loss = t.stop_loss := congrArg TradeCore.stop_loss hcore
  have htp : u.take_profit = t.take_profit := congrArg TradeCore.take_profit hcore
  refine ⟨close_trade_mem p t price rp τ hmp,
    close_trade_mem q u price rl τ' hmq, fun hkind => ?_⟩
  obtain ⟨h1, h2, h3, h4, h5, h6, h7⟩ := hpq
  refine ⟨h1, ?_, ?_, ?_, h5, ?_, ?_⟩
  · simp only []
    rw [h2, he, hqty]
  · simp only []
    rw [hp, hq, List.erase_cons_head, List.erase_cons_head]
  · simp only [List.map_append, h4]
    simp [Trade.close, Trade.core, he, hqty, hsym, hsl, htp, hkind]
  · simp only []
    rw [h6, he, hqty]
  · simp only []
    rw [h7, he, hqty]

/-- Simulation relation between the replay-driver state and the (per-bar
idealised) live-driver state, for a day whose single opening-window bar
produced the range `r0`. -/
structure SimInv (symbol : String) (r0 : OpeningRange)
    (stR : ReplayState) (stL : LiveState) : Prop where
  seen_eq : stL.seen = stR.seen
  rngR : stR.opening_range = some r0
  calcR : calculate_opening_range stR.seen = some r0
  rngL : stL.opening_range = some r0 ∨ stL.opening_range = none
  pm_equiv : pmEquiv stR.pm stL.pm
  pos_inv : stR.pm.open_trades = posList stR.open_position
  sym_inv : ∀ t ∈ stR.pm.open_trades, t.symbol = symbol
  events_eq : stL.events.map Event.core = stR.events.map Event.core
  stop_none : stL.stopped = true → stR.open_position = none
  stopped_trip : stL.stopped = true →
    stR.pm.losing_trade_hit = true ∨
    stR.pm.daily_pnl / stR.pm.starting_capital ≤ MAX_DAILY_LOSS_PCT
  not_stopped : stL.stopped = false →
    stR.pm.losing_trade_hit = false ∧
    ¬ stR.pm.daily_pnl / stR.pm.starting_capital ≤ MAX_DAILY_LOSS_PCT

/-- A tripped kill switch denies admission. -/
theorem can_open_trade_denied (pm : PositionManager)
    (h : pm.losing_trade_hit = true ∨
      pm.daily_pnl / pm.starting_capital ≤ MAX_DAILY_LOSS_PCT) :
    (pm.can_open_trade).1 = false := by
  unfold PositionManager.can_open_trade
  by_cases h1 : MAX_TRADES_PER_DAY ≤ pm.trades_today
  · rw [if_pos h1]
  · rw [if_neg h1]
    rcases h with h2 | h3
    · simp [h2]
    · by_cases h2 : pm.losing_trade_hit
      · simp [h2]
      · simp [h2, h3]

/-- With no position and denied admission, the replay step is a pure
book-keeping no-op. -/
theorem replay_step_noop (symbol : String) (st : ReplayState) (row : Bar)
    (hpos : st.open_position = none)
    (hdeny : (st.pm.can_open_trade).1 = false) :
    replay_step symbol st row
      = .ok ⟨st.seen ++ [row], replay_rng st row, st.pm, none, st.events⟩ := by
  have he : replay_entry symbol (replay_rng st row) st.pm row
      = .ok (st.pm, none, none) := by
    unfold replay_entry
    by_cases hb : (check_breakout (replay_rng st row) row 1.5).signal
        = BSignal.LONG_BREAKOUT
    · rw [if_pos hb, hdeny]
      simp
    · rw [if_neg hb]
  simp [replay_step, replay_exit_check, hpos, he]

/-- The step range of a replay state whose range is already set. -/
theorem replay_rng_of_set (st : ReplayState) (row : Bar) (r0 : OpeningRange)
    (h : st.opening_range = some r0) : replay_rng st row = some r0 := by
  unfold replay_rng
  rw [h]

/-- Exhaustive outcomes of `should_exit` without a trailing stop. -/
theorem should_exit_none_cases (c sl tp : ℚ) :
    (c ≤ sl ∧ should_exit c sl tp none
        = ⟨.EXIT_LOSS, some sl, .stopLossHit sl⟩) ∨
    (¬ c ≤ sl ∧ tp ≤ c ∧ should_exit c sl tp none
        = ⟨.EXIT_PROFIT, some tp, .takeProfitHit tp⟩) ∨
    (¬ c ≤ sl ∧ ¬ tp ≤ c ∧ should_exit c sl tp none
        = ⟨.HOLD, none, .noExitCondition⟩) := by
  by_cases h1 : c ≤ sl
  · exact Or.inl ⟨h1, by simp [should_exit, h1]⟩
  · by_cases h2 : tp ≤ c
    · exact Or.inr (Or.inl ⟨h1, h2, by simp [should_exit, h1, h2]⟩)
    · exact Or.inr (Or.inr ⟨h1, h2, by simp [should_exit, h1, h2]⟩)

/-- A live entry attempt with a position already held never enters. -/
theorem live_entry_found (symbol : String) (rng : Option OpeningRange)
    (pm : PositionManager) (last_bar : Bar) (u : Trade)
    (hfound : pm.get_open_position symbol = some u) :
    live_entry symbol rng pm last_bar = (pm, none) := by
  by_cases hb : (check_breakout rng last_bar 1.5).signal = BSignal.LONG_BREAKOUT
  · simp [live_entry, hb, hfound]
  · simp [live_entry, hb]

/-- A live entry attempt under denied admission never enters. -/
theorem live_entry_denied (symbol : String) (rng : Option OpeningRange)
    (pm : PositionManager) (last_bar : Bar)
    (hgop : pm.get_open_position symbol = none)
    (hdeny : (pm.can_open_trade).1 = false) :
    live_entry symbol rng pm last_bar = (pm, none) := by
  by_cases hb : (check_breakout rng last_bar 1.5).signal = BSignal.LONG_BREAKOUT
  · simp [live_entry, hb, hgop, hdeny]
  · simp [live_entry, hb]

/-- A list whose core image is a singleton is a singleton with that core. -/
theorem map_core_singleton (l : List Trade) (c : TradeCore)
    (h : l.map Trade.core = [c]) : ∃ u, l = [u] ∧ u.core = c := by
  cases l with
  | nil => cases h
  | cons u rest =>
      cases rest with
      | nil =>
          refine ⟨u, rfl, ?_⟩
          simpa using h
      | cons v rest' => simp at h

/-- A list whose core image is empty is empty. -/
theorem map_core_nil (l : List Trade) (h : l.map Trade.core = []) : l = [] := by
  cases l with
  | nil => rfl
  | cons u rest => simp at h

/-- Exit-phase simulation: with core-equal singleton positions and
`pmEquiv`-related managers, the replay exit check and the live exit loop take
the same decision on the same bar, leaving `pmEquiv`-related managers and
core-equal event logs. -/
theorem sim_exit_fold (b : Bar) (seenR : List Bar) (rng : Option OpeningRange)
    (pmR pmL : PositionManager) (t u : Trade) (evR evL : List Event)
    (stR' : ReplayState)
    (hequiv : pmEquiv pmR pmL)
    (hopenR : pmR.open_trades = [t]) (hopenL : pmL.open_trades = [u])
    (hcore : u.core = t.core)
    (hev : evL.map Event.core = evR.map Event.core)
    (hex : replay_exit_check seenR rng pmR (some t) evR b = .ok stR') :
    ∃ pmL' evL',
      pmL.open_trades.foldl (live_exit_trade b) (pmL, evL) = (pmL', evL') ∧
      stR'.seen = seenR ∧
      stR'.opening_range = rng ∧
      pmEquiv stR'.pm pmL' ∧
      evL'.map Event.core = stR'.events.map Event.core ∧
      stR'.pm.open_trades = posList stR'.open_position ∧
      (∀ t' ∈ stR'.pm.open_trades, t' = t) ∧
      (stR'.open_position = none ∨
        (stR'.open_position = some t ∧ stR'.pm = pmR ∧
          pmL' = pmL ∧ evL' = evL)) := by
  have hsl : u.stop_loss = t.stop_loss := congrArg TradeCore.stop_loss hcore
  have htp : u.take_profit = t.take_profit := congrArg TradeCore.take_profit hcore
  have hfold : pmL.open_trades.foldl (live_exit_trade b) (pmL, evL)
      = live_exit_trade b (pmL, evL) u := by
    rw [hopenL, List.foldl_cons, List.foldl_nil]
  rcases replay_exit_check_cases seenR rng pmR (some t) evR b stR' hex with
    ⟨hcontra, -⟩ | ⟨t', heq, hhold, hst'⟩ | ⟨t', pm2, heq, hne, hc, hst'⟩
  · cases hcontra
  · cases heq
    rcases should_exit_none_cases b.close t.stop_loss t.take_profit with
      ⟨-, hse⟩ | ⟨-, -, hse⟩ | ⟨h1, h2, hse⟩
    · rw [hse] at hhold
      cases hhold
    · rw [hse] at hhold
      cases hhold
    · have hlive : live_exit_trade b (pmL, evL) u = (pmL, evL) := by
        unfold live_exit_trade
        rw [if_neg (by rw [hsl]; exact h1), if_neg (by rw [htp]; exact h2)]
      refine ⟨pmL, evL, by rw [hfold, hlive], ?_, ?_, ?_, ?_, ?_, ?_, ?_⟩ <;>
        rw [hst']
      · exact hequiv
      · exact hev
      · exact hopenR
      · intro t' ht'
        rw [hopenR] at ht'
        simpa using ht'
      · exact Or.inr ⟨rfl, rfl, rfl, rfl⟩
  · cases heq
    rcases should_exit_none_cases b.close t.stop_loss t.take_profit with
      ⟨h1, hse⟩ | ⟨h1, h2, hse⟩ | ⟨-, -, hse⟩
    · -- stop-loss exit
      rw [hse] at hc hst'
      simp only [Option.getD] at hc hst'
      obtain ⟨hcp, hcq, hind⟩ := close_trade_equiv pmR pmL hequiv t u hcore
        t.stop_loss (.stopLossHit t.stop_loss) .stopLoss b.estHour 0 hopenR hopenL
      rw [hcp] at hc
      injection hc with hc
      have hlive : live_exit_trade b (pmL, evL) u
          = ({ pmL with
                open_trades := pmL.open_trades.erase u
                closed_trades := pmL.closed_trades ++
                  [u.close u.stop_loss 0 .stopLoss]
                daily_pnl := pmL.daily_pnl +
                  (u.stop_loss - u.entry_price) * u.quantity
                current_capital := pmL.current_capital +
                  (u.stop_loss - u.entry_price) * u.quantity
                losing_trade_hit :=
                  if (u.stop_loss - u.entry_price) * u.quantity < 0 then true
                  else pmL.losing_trade_hit },
             evL ++ [Event.exited u.stop_loss .stopLoss]) := by
        unfold live_exit_trade
        dsimp only
        rw [if_pos (by rw [hsl]; exact h1), hsl, hcq]
      refine ⟨_, _, by rw [hfold, hlive], ?_, ?_, ?_, ?_, ?_, ?_, ?_⟩ <;>
        rw [hst']
      · simp only []
        rw [← hc]
        rw [hsl]
        exact hind rfl
      · simp only [List.map_append]
        rw [hev]
        simp [Event.core, EReason.kind, hsl]
      · simp only []
        rw [← hc]
        simp only []
        rw [hopenR, List.erase_cons_head]
        rfl
      · intro t' ht'
        rw [← hc] at ht'
        simp only [] at ht'
        rw [hopenR, List.erase_cons_head] at ht'
        simp at ht'
      · exact Or.inl rfl
    · -- take-profit exit
      rw [hse] at hc hst'
      simp only [Option.getD] at hc hst'
      obtain ⟨hcp, hcq, hind⟩ := close_trade_equiv pmR pmL hequiv t u hcore
        t.take_profit (.takeProfitHit t.take_profit) .takeProfit b.estHour 0
        hopenR hopenL
      rw [hcp] at hc
      injection hc with hc
      have hlive : live_exit_trade b (pmL, evL) u
          = ({ pmL with
                open_trades := pmL.open_trades.erase u
                closed_trades := pmL.closed_trades ++
                  [u.close u.take_profit 0 .takeProfit]
                daily_pnl := pmL.daily_pnl +
                  (u.take_profit - u.entry_price) * u.quantity
                current_capital := pmL.current_capital +
                  (u.take_profit - u.entry_price) * u.quantity
                losing_trade_hit :=
                  if (u.take_profit - u.entry_price) * u.quantity < 0 then true
                  else pmL.losing_trade_hit },
             evL ++ [Event.exited u.take_profit .takeProfit]) := by
        unfold live_exit_trade
        dsimp only
        rw [if_neg (by rw [hsl]; exact h1), if_pos (by rw [htp]; exact h2),
          htp, hcq]
      refine ⟨_, _, by rw [hfold, hlive], ?_, ?_, ?_, ?_, ?_, ?_, ?_⟩ <;>
        rw [hst']
      · simp only []
        rw [← hc]
        rw [htp]
        exact hind rfl
      · simp only [List.map_append]
        rw [hev]
        simp [Event.core, EReason.kind, htp]
      · simp only []
        rw [← hc]
        simp only []
        rw [hopenR, List.erase_cons_head]
        rfl
      · intro t' ht'
        rw [← hc] at ht'
        simp only [] at ht'
        rw [hopenR, List.erase_cons_head] at ht'
        simp at ht'
      · exact Or.inl rfl
    · rw [hse] at hne
      simp at hne

/-- Evaluation of one live `monitor_symbol` poll after a new bar, with the
opening range resolving to `r0` whether already stored or computed now. -/
theorem monitor_symbol_eval (symbol : String) (stL : LiveState) (b : Bar)
    (r0 : OpeningRange) (res : PositionManager × Option Event)
    (hrngL : stL.opening_range = some r0 ∨ stL.opening_range = none)
    (hcalc : applyCalcOpeningRange none (stL.seen ++ [b]) = some r0)
    (hle : live_entry symbol (some r0) stL.pm b = res) :
    monitor_symbol symbol { stL with seen := stL.seen ++ [b] }
      = ⟨stL.seen ++ [b], some r0, res.1, stL.events ++ res.2.toList,
          stL.stopped⟩ := by
  rcases hrngL with hl | hl <;>
    simp [monitor_symbol, List.getLast?_concat, hl, hcalc, hle]

/-- Evaluation of one live `monitor_open_positions` sweep. -/
theorem monitor_open_positions_eval (seen : List Bar)
    (rng : Option OpeningRange) (pm : PositionManager) (ev : List Event)
    (stopped : Bool) (b : Bar) (pmL' : PositionManager) (evL' : List Event)
    (hlast : seen.getLast? = some b)
    (hfold : pm.open_trades.foldl (live_exit_trade b) (pm, ev) = (pmL', evL')) :
    monitor_open_positions ⟨seen, rng, pm, ev, stopped⟩
      = ⟨seen, rng, pmL', evL', stopped⟩ := by
  simp [monitor_open_positions, hlast, hfold]

/-- Evaluation of one in-window live step of a running session. -/
theorem live_step_eval (symbol : String) (stL : LiveState) (b : Bar)
    (st2 : LiveState)
    (hstop : stL.stopped = false)
    (hb1 : TRADING_WINDOW_START ≤ b.estHour)
    (hb2 : b.estHour ≤ TRADING_WINDOW_END)
    (hmm : monitor_open_positions
        (monitor_symbol symbol { stL with seen := stL.seen ++ [b] }) = st2) :
    live_step symbol stL b
      = if st2.pm.losing_trade_hit then { st2 with stopped := true }
        else if st2.pm.daily_pnl / st2.pm.starting_capital ≤ MAX_DAILY_LOSS_PCT
        then { st2 with stopped := true }
        else st2 := by
  rw [hstop] at hmm
  simp [live_step, hstop, hb1, hb2, hmm]

/-- Assembling the simulation invariant when the live session stops at this
bar. -/
theorem sim_inv_stopped (symbol : String) (r0 : OpeningRange)
    (stR' : ReplayState) (seenL : List Bar) (pmL' : PositionManager)
    (evL' : List Event)
    (hseen : stR'.seen = seenL)
    (hrngR' : stR'.opening_range = some r0)
    (hcalcR' : calculate_opening_range stR'.seen = some r0)
    (hequiv : pmEquiv stR'.pm pmL')
    (hev : evL'.map Event.core = stR'.events.map Event.core)
    (hposinv : stR'.pm.open_trades = posList stR'.open_position)
    (hsym : ∀ t' ∈ stR'.pm.open_trades, t'.symbol = symbol)
    (hposnone : stR'.open_position = none)
    (htrip : pmL'.losing_trade_hit = true ∨
      pmL'.daily_pnl / pmL'.starting_capital ≤ MAX_DAILY_LOSS_PCT) :
    SimInv symbol r0 stR' ⟨seenL, some r0, pmL', evL', true⟩ := by
  refine ⟨hseen.symm, hrngR', hcalcR', Or.inl rfl, hequiv, hposinv, hsym, hev,
    fun _ => hposnone, fun _ => ?_, fun hcontra => (by cases hcontra)⟩
  rcases htrip with ht | ht
  · exact Or.inl (by rw [hequiv.2.2.2.2.2.1, ht])
  · exact Or.inr (by rw [hequiv.2.2.2.2.2.2, hequiv.1]; exact ht)

/-- Assembling the simulation invariant when the live session keeps
running. -/
theorem sim_inv_running (symbol : String) (r0 : OpeningRange)
    (stR' : ReplayState) (seenL : List Bar) (pmL' : PositionManager)
    (evL' : List Event)
    (hseen : stR'.seen = seenL)
    (hrngR' : stR'.opening_range = some r0)
    (hcalcR' : calculate_opening_range stR'.seen = some r0)
    (hequiv : pmEquiv stR'.pm pmL')
    (hev : evL'.map Event.core = stR'.events.map Event.core)
    (hposinv : stR'.pm.open_trades = posList stR'.open_position)
    (hsym : ∀ t' ∈ stR'.pm.open_trades, t'.symbol = symbol)
    (hlos' : pmL'.losing_trade_hit = false)
    (hdl' : ¬ pmL'.daily_pnl / pmL'.starting_capital ≤ MAX_DAILY_LOSS_PCT) :
    SimInv symbol r0 stR' ⟨seenL, some r0, pmL', evL', false⟩ := by
  refine ⟨hseen.symm, hrngR', hcalcR', Or.inl rfl, hequiv, hposinv, hsym, hev,
    fun hcontra => (by cases hcontra), fun hcontra => (by cases hcontra),
    fun _ => ⟨(by rw [hequiv.2.2.2.2.2.1, hlos']), ?_⟩⟩
  rw [hequiv.2.2.2.2.2.2, hequiv.1]
  exact hdl'

/-- One in-window bar preserves the replay/live simulation relation. -/
theorem sim_step (symbol : String) (r0 : OpeningRange) (b : Bar)
    (stR : ReplayState) (stL : LiveState) (stR' : ReplayState)
    (hb1 : TRADING_WINDOW_START ≤ b.estHour)
    (hb2 : b.estHour ≤ TRADING_WINDOW_END)
    (inv : SimInv symbol r0 stR stL)
    (h : replay_step symbol stR b = .ok stR') :
    SimInv symbol r0 stR' (live_step symbol stL b) := by
  have hrng : replay_rng stR b = some r0 := replay_rng_of_set stR b r0 inv.rngR
  have hcalc2 : calculate_opening_range (stR.seen ++ [b]) = some r0 := by
    rw [calculate_opening_range_append stR.seen b hb1]
    exact inv.calcR
  have hseen2 : stR'.seen = stR.seen ++ [b] := replay_step_seen symbol stR b stR' h
  have hrngR' : stR'.opening_range = some r0 := by
    rw [replay_step_opening_range symbol stR b stR' h, hrng]
  have hcalcR' : calculate_opening_range stR'.seen = some r0 := by
    rw [hseen2]
    exact hcalc2
  have hacalc : applyCalcOpeningRange none (stL.seen ++ [b]) = some r0 := by
    rw [inv.seen_eq]
    simp [applyCalcOpeningRange, hcalc2]
  have hseenEq : stR'.seen = stL.seen ++ [b] := by
    rw [hseen2, inv.seen_eq]
  cases hstop : stL.stopped with
  | true =>
      have hpos : stR.open_position = none := inv.stop_none hstop
      have hdeny : (stR.pm.can_open_trade).1 = false :=
        can_open_trade_denied stR.pm (inv.stopped_trip hstop)
      rw [replay_step_noop symbol stR b hpos hdeny] at h
      injection h with h
      subst h
      have hlstep : live_step symbol stL b
          = { stL with seen := stL.seen ++ [b] } := by
        simp [live_step, hstop]
      rw [hlstep]
      refine ⟨?_, hrngR', hcalcR', inv.rngL, inv.pm_equiv, ?_, inv.sym_inv,
        inv.events_eq, fun _ => rfl, fun _ => inv.stopped_trip hstop,
        fun hcontra => ?_⟩
      · show stL.seen ++ [b] = stR.seen ++ [b]
        rw [inv.seen_eq]
      · show stR.pm.open_trades = posList none
        rw [← hpos]
        exact inv.pos_inv
      · exfalso
        have h2 : stL.stopped = false := hcontra
        rw [hstop] at h2
        cases h2
  | false =>
      obtain ⟨hlos, hdl⟩ := inv.not_stopped hstop
      have hlosL : stL.pm.losing_trade_hit = false := by
        rw [← inv.pm_equiv.2.2.2.2.2.1]
        exact hlos
      have hdlL : ¬ stL.pm.daily_pnl / stL.pm.starting_capital
          ≤ MAX_DAILY_LOSS_PCT := by
        rw [← inv.pm_equiv.2.2.2.2.2.2, ← inv.pm_equiv.1]
        exact hdl
      rcases replay_step_cases symbol stR b stR' h with
        ⟨t, hop, hex⟩ | ⟨pm1, pos1, ev1, hop, hen, hex⟩
      · -- position already open: exit phase only
        have hopenR : stR.pm.open_trades = [t] := by
          rw [inv.pos_inv, hop]
          rfl
        have hts : t.symbol = symbol :=
          inv.sym_inv t (by rw [hopenR]; exact List.mem_singleton_self t)
        have hmapL : stL.pm.open_trades.map Trade.core = [t.core] := by
          rw [← inv.pm_equiv.2.2.1, hopenR]
          rfl
        obtain ⟨u, hopenL, hcoreu⟩ := map_core_singleton _ _ hmapL
        have hus : u.symbol = symbol := by
          have h1 : u.symbol = t.symbol := congrArg TradeCore.symbol hcoreu
          rw [h1, hts]
        have hgop : stL.pm.get_open_position symbol = some u :=
          get_open_position_singleton _ _ _ hopenL hus
        have hleq : live_entry symbol (some r0) stL.pm b = (stL.pm, none) :=
          live_entry_found symbol (some r0) stL.pm b u hgop
        have hms := monitor_symbol_eval symbol stL b r0 (stL.pm, none)
          inv.rngL hacalc hleq
        have hexx : replay_exit_check (stR.seen ++ [b]) (some r0) stR.pm
            (some t) stR.events b = .ok stR' := by
          rw [← hrng]
          exact hex
        obtain ⟨pmL', evL', hfoldL, hseenF, hrngF, hequivF, hevF, hposF,
            helemF, hdisjF⟩ :=
          sim_exit_fold b (stR.seen ++ [b]) (some r0) stR.pm stL.pm t u
            stR.events (stL.events ++ (none : Option Event).toList) stR'
            inv.pm_equiv hopenR hopenL hcoreu (by simp [inv.events_eq]) hexx
        have hmop := monitor_open_positions_eval (stL.seen ++ [b]) (some r0)
          stL.pm (stL.events ++ (none : Option Event).toList) stL.stopped b
          pmL' evL' (List.getLast?_concat _) hfoldL
        have hcomb : monitor_open_positions
            (monitor_symbol symbol { stL with seen := stL.seen ++ [b] })
            = ⟨stL.seen ++ [b], some r0, pmL', evL', stL.stopped⟩ := by
          rw [hms]
          exact hmop
        have hls := live_step_eval symbol stL b
          ⟨stL.seen ++ [b], some r0, pmL', evL', stL.stopped⟩
          hstop hb1 hb2 hcomb
        have hevF' : evL'.map Event.core = stR'.events.map Event.core := hevF
        have hsymF : ∀ t' ∈ stR'.pm.open_trades, t'.symbol = symbol :=
          fun t' ht' => by rw [helemF t' ht']; exact hts
        by_cases htrip1 : pmL'.losing_trade_hit = true
        · have hfinal : live_step symbol stL b
              = ⟨stL.seen ++ [b], some r0, pmL', evL', true⟩ := by
            rw [hls]
            simp [htrip1]
          rw [hfinal]
          have hposN : stR'.open_position = none := by
            rcases hdisjF with hn | ⟨-, -, hpmL, -⟩
            · exact hn
            · exfalso
              rw [hpmL] at htrip1
              rw [hlosL] at htrip1
              cases htrip1
          exact sim_inv_stopped symbol r0 stR' (stL.seen ++ [b]) pmL' evL'
            hseenEq hrngR' hcalcR' hequivF hevF' hposF hsymF hposN
            (Or.inl htrip1)
        · by_cases htrip2 : pmL'.daily_pnl / pmL'.starting_capital
              ≤ MAX_DAILY_LOSS_PCT
          · have hfinal : live_step symbol stL b
                = ⟨stL.seen ++ [b], some r0, pmL', evL', true⟩ := by
              rw [hls]
              simp [htrip1, htrip2]
            rw [hfinal]
            have hposN : stR'.open_position = none := by
              rcases hdisjF with hn | ⟨-, -, hpmL, -⟩
              · exact hn
              · exfalso
                rw [hpmL] at htrip2
                exact hdlL htrip2
            exact sim_inv_stopped symbol r0 stR' (stL.seen ++ [b]) pmL' evL'
              hseenEq hrngR' hcalcR' hequivF hevF' hposF hsymF hposN
              (Or.inr htrip2)
          · have hfinal : live_step symbol stL b
                = ⟨stL.seen ++ [b], some r0, pmL', evL', false⟩ := by
              rw [hls]
              simp [htrip1, htrip2, hstop]
            rw [hfinal]
            exact sim_inv_running symbol r0 stR' (stL.seen ++ [b]) pmL' evL'
              hseenEq hrngR' hcalcR' hequivF hevF' hposF hsymF
              ((Bool.not_eq_true _).mp htrip1) htrip2
      · -- no position: entry phase then exit phase
        have hopenRnil : stR.pm.open_trades = [] := by
          rw [inv.pos_inv, hop]
          rfl
        have hopenLnil : stL.pm.open_trades = [] := by
          refine map_core_nil _ ?_
          rw [← inv.pm_equiv.2.2.1, hopenRnil]
          rfl
        have hgop : stL.pm.get_open_position symbol = none :=
          get_open_position_nil _ _ hopenLnil
        rcases replay_entry_cases symbol (replay_rng stR b) stR.pm b
            (pm1, pos1, ev1) hen with
          ⟨hres, hcond⟩ | ⟨pm1', t, levels, hbL, hcan, hlev, ho, hres⟩
        · -- no entry this bar
          have hpm1 : pm1 = stR.pm := congrArg Prod.fst hres
          have hpos1 : pos1 = none := congrArg (fun x => x.2.1) hres
          have hev1 : ev1 = none := congrArg (fun x => x.2.2) hres
          subst hpm1 hpos1 hev1
          have hleq : live_entry symbol (some r0) stL.pm b = (stL.pm, none) := by
            rcases hcond with hnb | hcf
            · rw [hrng] at hnb
              unfold live_entry
              rw [if_neg hnb]
            · refine live_entry_denied symbol (some r0) stL.pm b hgop ?_
              rw [← can_open_trade_congr stR.pm stL.pm inv.pm_equiv]
              exact hcf
          have hms := monitor_symbol_eval symbol stL b r0 (stL.pm, none)
            inv.rngL hacalc hleq
          rcases replay_exit_check_cases _ _ _ _ _ _ _ hex with
            ⟨-, hst'⟩ | ⟨t', heq, -, -⟩ | ⟨t', pm2, heq, -, -, -⟩
          · have hfoldnil : stL.pm.open_trades.foldl (live_exit_trade b)
                (stL.pm, stL.events ++ (none : Option Event).toList)
                = (stL.pm, stL.events ++ (none : Option Event).toList) := by
              rw [hopenLnil]
              rfl
            have hmop := monitor_open_positions_eval (stL.seen ++ [b])
              (some r0) stL.pm (stL.events ++ (none : Option Event).toList)
              stL.stopped b stL.pm
              (stL.events ++ (none : Option Event).toList)
              (List.getLast?_concat _) hfoldnil
            have hcomb : monitor_open_positions
                (monitor_symbol symbol { stL with seen := stL.seen ++ [b] })
                = ⟨stL.seen ++ [b], some r0, stL.pm,
                    stL.events ++ (none : Option Event).toList,
                    stL.stopped⟩ := by
              rw [hms]
              exact hmop
            have hls := live_step_eval symbol stL b
              ⟨stL.seen ++ [b], some r0, stL.pm,
                stL.events ++ (none : Option Event).toList, stL.stopped⟩
              hstop hb1 hb2 hcomb
            have hfinal : live_step symbol stL b
                = ⟨stL.seen ++ [b], some r0, stL.pm,
                    stL.events ++ (none : Option Event).toList, false⟩ := by
              rw [hls]
              simp [hlosL, hdlL, hstop]
            rw [hfinal]
            refine sim_inv_running symbol r0 stR' (stL.seen ++ [b]) stL.pm
              (stL.events ++ (none : Option Event).toList)
              hseenEq hrngR' hcalcR' ?_ ?_ ?_ ?_ hlosL hdlL
            · rw [hst']
              exact inv.pm_equiv
            · rw [hst']
              simp [inv.events_eq]
            · rw [hst']
              show stR.pm.open_trades = posList none
              rw [hopenRnil]
              rfl
            · rw [hst']
              intro t' ht'
              rw [hopenRnil] at ht'
              cases ht'
          · cases heq
          · cases heq
        · -- entry this bar
          have hpm1 : pm1 = pm1' := congrArg Prod.fst hres
          have hpos1 : pos1 = some t := congrArg (fun x => x.2.1) hres
          have hev1 : ev1 = some (Event.entered symbol t.entry_price
              t.quantity t.stop_loss t.take_profit) :=
            congrArg (fun x => x.2.2) hres
          subst hpm1 hpos1 hev1
          rw [hrng] at hbL hlev ho
          obtain ⟨hcanR, hqpos, htshape, hpm1sh⟩ :=
            open_trade_ok_inv _ _ _ _ _ _ _ _ ho
          have hts : t.symbol = symbol := by
            rw [htshape]
          obtain ⟨q', u, hoq, hequiv1, hcoreu⟩ :=
            open_trade_equiv stR.pm stL.pm inv.pm_equiv symbol
              ((check_breakout (some r0) b 1.5).entry_price.getD 0)
              levels.stop_loss levels.take_profit_conservative b.estHour 0
              pm1 t ho
          have hcanL : (stL.pm.can_open_trade).1 = true := by
            rw [← can_open_trade_congr stR.pm stL.pm inv.pm_equiv]
            exact hcanR
          have hleq : live_entry symbol (some r0) stL.pm b
              = (q', some (Event.entered symbol u.entry_price u.quantity
                  u.stop_loss u.take_profit)) := by
            simp [live_entry, hbL, hgop, hcanL, hlev, hoq]
          have hms := monitor_symbol_eval symbol stL b r0
            (q', some (Event.entered symbol u.entry_price u.quantity
              u.stop_loss u.take_profit))
            inv.rngL hacalc hleq
          have hopenR1 : pm1.open_trades = [t] := by
            rw [hpm1sh]
            simp [hopenRnil]
          obtain ⟨-, -, -, hq'sh⟩ := open_trade_ok_inv _ _ _ _ _ _ _ _ hoq
          have hopenL1 : q'.open_trades = [u] := by
            rw [hq'sh]
            simp [hopenLnil]
          have hue : u.entry_price = t.entry_price :=
            congrArg TradeCore.entry_price hcoreu
          have huq : u.quantity = t.quantity :=
            congrArg TradeCore.quantity hcoreu
          have husl : u.stop_loss = t.stop_loss :=
            congrArg TradeCore.stop_loss hcoreu
          have hutp : u.take_profit = t.take_profit :=
            congrArg TradeCore.take_profit hcoreu
          have hevents1 : (stL.events ++ (some (Event.entered symbol
                u.entry_price u.quantity u.stop_loss u.take_profit)
                : Option Event).toList).map Event.core
              = (stR.events ++ (some (Event.entered symbol t.entry_price
                  t.quantity t.stop_loss t.take_profit)
                  : Option Event).toList).map Event.core := by
            simp [inv.events_eq, Event.core, hue, huq, husl, hutp]
          have hexx : replay_exit_check (stR.seen ++ [b]) (some r0) pm1
              (some t) (stR.events ++ (some (Event.entered symbol
                t.entry_price t.quantity t.stop_loss t.take_profit)
                : Option Event).toList) b = .ok stR' := by
            rw [← hrng]
            exact hex
          obtain ⟨pmL', evL', hfoldL, hseenF, hrngF, hequivF, hevF, hposF,
              helemF, hdisjF⟩ :=
            sim_exit_fold b (stR.seen ++ [b]) (some r0) pm1 q' t u
              (stR.events ++ (some (Event.entered symbol t.entry_price
                t.quantity t.stop_loss t.take_profit) : Option Event).toList)
              (stL.events ++ (some (Event.entered symbol u.entry_price
                u.quantity u.stop_loss u.take_profit) : Option Event).toList)
              stR' hequiv1 hopenR1 hopenL1 hcoreu hevents1 hexx
          have hmop := monitor_open_positions_eval (stL.seen ++ [b]) (some r0)
            q' (stL.events ++ (some (Event.entered symbol u.entry_price
              u.quantity u.stop_loss u.take_profit) : Option Event).toList)
            stL.stopped b pmL' evL' (List.getLast?_concat _) hfoldL
          have hcomb : monitor_open_positions
              (monitor_symbol symbol { stL with seen := stL.seen ++ [b] })
              = ⟨stL.seen ++ [b], some r0, pmL', evL', stL.stopped⟩ := by
            rw [hms]
            exact hmop
          have hls := live_step_eval symbol stL b
            ⟨stL.seen ++ [b], some r0, pmL', evL', stL.stopped⟩
            hstop hb1 hb2 hcomb
          have hsymF : ∀ t' ∈ stR'.pm.open_trades, t'.symbol = symbol :=
            fun t' ht' => by rw [helemF t' ht']; exact hts
          have hq'los : q'.losing_trade_hit = false := by
            rw [hq'sh]
            exact hlosL
          have hq'dl : ¬ q'.daily_pnl / q'.starting_capital
              ≤ MAX_DAILY_LOSS_PCT := by
            rw [hq'sh]
            exact hdlL
          by_cases htrip1 : pmL'.losing_trade_hit = true
          · have hfinal : live_step symbol stL b
                = ⟨stL.seen ++ [b], some r0, pmL', evL', true⟩ := by
              rw [hls]
              simp [htrip1]
            rw [hfinal]
            have hposN : stR'.open_position = none := by
              rcases hdisjF with hn | ⟨-, -, hpmL, -⟩
              · exact hn
              · exfalso
                rw [hpmL, hq'los] at htrip1
                cases htrip1
            exact sim_inv_stopped symbol r0 stR' (stL.seen ++ [b]) pmL' evL'
              hseenEq hrngR' hcalcR' hequivF hevF hposF hsymF hposN
              (Or.inl htrip1)
          · by_cases htrip2 : pmL'.daily_pnl / pmL'.starting_capital
                ≤ MAX_DAILY_LOSS_PCT
            · have hfinal : live_step symbol stL b
                  = ⟨stL.seen ++ [b], some r0, pmL', evL', true⟩ := by
                rw [hls]
                simp [htrip1, htrip2]
              rw [hfinal]
              have hposN : stR'.open_position = none := by
                rcases hdisjF with hn | ⟨-, -, hpmL, -⟩
                · exact hn
                · exfalso
                  rw [hpmL] at htrip2
                  exact hq'dl htrip2
              exact sim_inv_stopped symbol r0 stR' (stL.seen ++ [b]) pmL' evL'
                hseenEq hrngR' hcalcR' hequivF hevF hposF hsymF hposN
                (Or.inr htrip2)
            · have hfinal : live_step symbol stL b
                  = ⟨stL.seen ++ [b], some r0, pmL', evL', false⟩ := by
                rw [hls]
                simp [htrip1, htrip2, hstop]
              rw [hfinal]
              exact sim_inv_running symbol r0 stR' (stL.seen ++ [b]) pmL'
                evL' hseenEq hrngR' hcalcR' hequivF hevF hposF hsymF
                ((Bool.not_eq_true _).mp htrip1) htrip2

/-- The simulation relation is preserved along any run of in-window bars. -/
theorem sim_fold (symbol : String) (r0 : OpeningRange) (bars : List Bar) :
    ∀ (stR : ReplayState) (stL : LiveState) (stR' : ReplayState),
    (∀ b ∈ bars, TRADING_WINDOW_START ≤ b.estHour ∧
      b.estHour ≤ TRADING_WINDOW_END) →
    SimInv symbol r0 stR stL →
    bars.foldlM (replay_step symbol) stR = .ok stR' →
    SimInv symbol r0 stR' (bars.foldl (live_step symbol) stL) := by
  induction bars with
  | nil =>
      intro stR stL stR' _ inv h
      rw [List.foldlM_nil] at h
      cases h
      rw [List.foldl_nil]
      exact inv
  | cons b rest ih =>
      intro stR stL stR' hbars inv h
      rw [List.foldlM_cons] at h
      cases hf0 : replay_step symbol stR b with
      | error e =>
          rw [hf0] at h
          cases h
      | ok st1 =>
          rw [hf0] at h
          simp only [bind, Except.bind] at h
          rw [List.foldl_cons]
          have hb := hbars b (List.mem_cons_self b rest)
          exact ih st1 (live_step symbol stL b) stR'
            (fun b' hb' => hbars b' (List.mem_cons_of_mem b hb'))
            (sim_step symbol r0 b stR stL st1 hb.1 hb.2 inv hf0) h

/-- The day's single opening-window bar: the replay driver locks in the
computed range and takes no trading action, the live driver only records the
bar, and the two resulting states are in simulation. -/
theorem sim_base (symbol : String) (pm0 : PositionManager) (ob : Bar)
    (r0 : OpeningRange)
    (hopen0 : pm0.open_trades = [])
    (hob2 : ob.estHour < TRADING_WINDOW_START)
    (hcalc0 : calculate_opening_range [ob] = some r0) :
    replay_step symbol ⟨[], none, pm0.reset_daily_limits, none, []⟩ ob
        = .ok ⟨[ob], some r0, pm0.reset_daily_limits, none, []⟩ ∧
    live_step symbol ⟨[], none, pm0.reset_daily_limits, [], false⟩ ob
        = ⟨[ob], none, pm0.reset_daily_limits, [], false⟩ ∧
    SimInv symbol r0 ⟨[ob], some r0, pm0.reset_daily_limits, none, []⟩
      ⟨[ob], none, pm0.reset_daily_limits, [], false⟩ := by
  have hnw : ¬ (TRADING_WINDOW_START ≤ ob.estHour ∧
      ob.estHour ≤ TRADING_WINDOW_END) :=
    fun hc => absurd hc.1 (not_le.mpr hob2)
  have hrng0 : replay_rng ⟨[], none, pm0.reset_daily_limits, none, []⟩ ob
      = some r0 := by
    simp [replay_rng, applyCalcOpeningRange, hcalc0]
  have hcb : check_breakout (some r0) ob 1.5
      = ⟨.NO_SETUP, none, .outsideTradingWindow⟩ := by
    simp [check_breakout, hnw]
  have hent : replay_entry symbol (some r0) pm0.reset_daily_limits ob
      = .ok (pm0.reset_daily_limits, none, none) := by
    unfold replay_entry
    rw [hcb]
    simp
  refine ⟨?_, ?_, ?_⟩
  · show replay_step symbol ⟨[], none, pm0.reset_daily_limits, none, []⟩ ob = _
    unfold replay_step
    simp only [hrng0, hent, replay_exit_check]
    simp
  · simp [live_step, hnw]
  · refine ⟨rfl, rfl, hcalc0, Or.inr rfl, pmEquiv_refl _, ?_, ?_, rfl,
      fun hc => (by cases hc), fun hc => (by cases hc), fun _ => ⟨rfl, ?_⟩⟩
    · show pm0.open_trades = posList none
      rw [hopen0]
      rfl
    · intro t ht
      exact absurd ht (by
        simp [PositionManager.reset_daily_limits, hopen0])
    · show ¬ (0 : ℚ) / pm0.starting_capital ≤ MAX_DAILY_LOSS_PCT
      rw [zero_div]
      norm_num [MAX_DAILY_LOSS_PCT]

/-- C2 (amended): on a trading date whose fetched bars consist of one bar in
the opening-range window followed only by bars inside the trading window —
so that both drivers deterministically compute the same opening range — a
successful replayed day and the idealised live session agree decision for
decision: the live session produces exactly the replay's event sequence
(modulo the drivers' different reason strings, erased by `Event.core`) and
ends at exactly the replayed final capital. -/
theorem replay_live_equivalence (symbol : String) (pm0 : PositionManager)
    (ob : Bar) (rest : List Bar) (r0 : OpeningRange) (stR : ReplayState)
    (hopen0 : pm0.open_trades = [])
    (hob1 : MARKET_OPEN_EST ≤ ob.estHour)
    (hob2 : ob.estHour < TRADING_WINDOW_START)
    (hrest : ∀ b ∈ rest, TRADING_WINDOW_START ≤ b.estHour ∧
      b.estHour ≤ TRADING_WINDOW_END)
    (hcalc0 : calculate_opening_range [ob] = some r0)
    (hr : replay_day symbol pm0 (ob :: rest) = .ok stR) :
    (live_day symbol pm0 (ob :: rest)).map
        (fun st => (st.events.map Event.core, st.pm.current_capital))
      = .ok (stR.events.map Event.core, stR.pm.current_capital) := by
  obtain ⟨hstepR, hstepL, inv1⟩ := sim_base symbol pm0 ob r0 hopen0 hob2 hcalc0
  cases hfold0 : (ob :: rest).foldlM (replay_step symbol)
      ⟨[], none, pm0.reset_daily_limits, none, []⟩ with
  | error e =>
      simp [replay_day, hfold0, bind, Except.bind] at hr
  | ok stMid =>
      have hfold := hfold0
      rw [List.foldlM_cons, hstepR] at hfold
      simp only [bind, Except.bind] at hfold
      have invMid := sim_fold symbol r0 rest _ _ stMid hrest inv1 hfold
      have hlfold : (ob :: rest).foldl (live_step symbol)
          ⟨[], none, pm0.reset_daily_limits, [], false⟩
          = rest.foldl (live_step symbol)
              ⟨[ob], none, pm0.reset_daily_limits, [], false⟩ := by
        rw [List.foldl_cons, hstepL]
      set stLMid := rest.foldl (live_step symbol)
        ⟨[ob], none, pm0.reset_daily_limits, [], false⟩ with hstLdef
      cases hpos : stMid.open_position with
      | none =>
          have hstR : stMid = stR := by
            simp only [replay_day, hfold0, hpos, bind, Except.bind, pure,
              Except.pure] at hr
            exact Except.ok.inj hr
          have hopenLnil : stLMid.pm.open_trades = [] := by
            refine map_core_nil _ ?_
            rw [← invMid.pm_equiv.2.2.1, invMid.pos_inv, hpos]
            rfl
          have hlive : live_day symbol pm0 (ob :: rest) = .ok stLMid := by
            simp only [live_day, hlfold, hopenLnil, List.foldlM_nil]
            rfl
          rw [hlive, ← hstR]
          simp only [Except.map]
          rw [invMid.events_eq, ← invMid.pm_equiv.2.1]
      | some pos =>
          have hopenR : stMid.pm.open_trades = [pos] := by
            rw [invMid.pos_inv, hpos]
            rfl
          have hmapL : stLMid.pm.open_trades.map Trade.core = [pos.core] := by
            rw [← invMid.pm_equiv.2.2.1, hopenR]
            rfl
          obtain ⟨u, hopenL, hcoreu⟩ := map_core_singleton _ _ hmapL
          have hseenR : stMid.seen = ob :: rest := by
            have hs := replay_fold_seen symbol (ob :: rest)
              ⟨[], none, pm0.reset_daily_limits, none, []⟩ stMid hfold0
            simpa using hs
          cases hgl : (ob :: rest).getLast? with
          | none => simp at hgl
          | some lb =>
              have hglR : stMid.seen.getLast? = some lb := by
                rw [hseenR]
                exact hgl
              have hglL : stLMid.seen.getLast? = some lb := by
                rw [invMid.seen_eq]
                exact hglR
              obtain ⟨hcR, hcL, hkpm⟩ := close_trade_equiv stMid.pm stLMid.pm
                invMid.pm_equiv pos u hcoreu lb.close .endOfDay .marketClose
                lb.estHour 0 hopenR hopenL
              have hpmeq2 := hkpm rfl
              have hstR : ({ stMid with
                  pm := { stMid.pm with
                    open_trades := stMid.pm.open_trades.erase pos
                    closed_trades := stMid.pm.closed_trades
                      ++ [pos.close lb.close lb.estHour .endOfDay]
                    daily_pnl := stMid.pm.daily_pnl
                      + (lb.close - pos.entry_price) * pos.quantity
                    current_capital := stMid.pm.current_capital
                      + (lb.close - pos.entry_price) * pos.quantity
                    losing_trade_hit :=
                      if (lb.close - pos.entry_price) * pos.quantity < 0
                      then true else stMid.pm.losing_trade_hit }
                  open_position := none
                  events := stMid.events
                    ++ [Event.exited lb.close .endOfDay] } : ReplayState)
                  = stR := by
                simp only [replay_day, hfold0, hpos, hglR, hcR, bind,
                  Except.bind, pure, Except.pure] at hr
                exact Except.ok.inj hr
              have hlive : live_day symbol pm0 (ob :: rest)
                  = .ok { stLMid with
                      pm := { stLMid.pm with
                        open_trades := stLMid.pm.open_trades.erase u
                        closed_trades := stLMid.pm.closed_trades
                          ++ [u.close lb.close 0 .marketClose]
                        daily_pnl := stLMid.pm.daily_pnl
                          + (lb.close - u.entry_price) * u.quantity
                        current_capital := stLMid.pm.current_capital
                          + (lb.close - u.entry_price) * u.quantity
                        losing_trade_hit :=
                          if (lb.close - u.entry_price) * u.quantity < 0
                          then true else stLMid.pm.losing_trade_hit }
                      events := stLMid.events
                        ++ [Event.exited lb.close .marketClose] } := by
                simp only [live_day, hlfold, hopenL, List.foldlM_cons,
                  List.foldlM_nil, hglL, hcL, bind, Except.bind, pure,
                  Except.pure]
              rw [hlive, ← hstR]
              simp only [Except.map, Except.ok.injEq, Prod.mk.injEq]
              constructor
              · simp [List.map_append, invMid.events_eq, Event.core,
                  EReason.kind]
              · exact hpmeq2.2.1.symm

/-- Closed instance of the amended C2 equivalence: a day with one
opening-range bar and one in-window breakout bar, replayed and run live from
fresh capital 40, with the concrete final state spelled out. -/
theorem replay_live_equivalence_witness :
    (PositionManager.init 40).open_trades = [] ∧
    MARKET_OPEN_EST ≤ (⟨9.55, 100, 101, 100, 100.5, 1000⟩ : Bar).estHour ∧
    (⟨9.55, 100, 101, 100, 100.5, 1000⟩ : Bar).estHour
      < TRADING_WINDOW_START ∧
    (∀ b ∈ [(⟨10, 101, 102, 101, 101.5, 2000⟩ : Bar)],
      TRADING_WINDOW_START ≤ b.estHour ∧ b.estHour ≤ TRADING_WINDOW_END) ∧
    calculate_opening_range [⟨9.55, 100, 101, 100, 100.5, 1000⟩]
      = some ⟨101, 100, 1, 1000⟩ ∧
    replay_day "S" (PositionManager.init 40)
        [⟨9.55, 100, 101, 100, 100.5, 1000⟩, ⟨10, 101, 102, 101, 101.5, 2000⟩]
      = .ok ⟨[⟨9.55, 100, 101, 100, 100.5, 1000⟩,
              ⟨10, 101, 102, 101, 101.5, 2000⟩],
             some ⟨101, 100, 1, 1000⟩,
             ⟨40, 40, [],
              [⟨"S", 101.5, 10, 8/15, 100, 109.62, some 101.5, some 10,
                some .endOfDay, 0, 0⟩], 1, false, 0⟩,
             none,
             [Event.entered "S" 101.5 (8/15) 100 109.62,
              Event.exited 101.5 .endOfDay]⟩ ∧
    (live_day "S" (PositionManager.init 40)
        [⟨9.55, 100, 101, 100, 100.5, 1000⟩,
         ⟨10, 101, 102, 101, 101.5, 2000⟩]).map
        (fun st => (st.events.map Event.core, st.pm.current_capital))
      = .ok (([Event.entered "S" 101.5 (8/15) 100 109.62,
               Event.exited 101.5 .endOfDay].map Event.core), 40) := by
  have h1 : (PositionManager.init 40).open_trades = [] := rfl
  have h2 : MARKET_OPEN_EST
      ≤ (⟨9.55, 100, 101, 100, 100.5, 1000⟩ : Bar).estHour := by
    norm_num [MARKET_OPEN_EST]
  have h3 : (⟨9.55, 100, 101, 100, 100.5, 1000⟩ : Bar).estHour
      < TRADING_WINDOW_START := by
    norm_num [TRADING_WINDOW_START]
  have h4 : ∀ b ∈ [(⟨10, 101, 102, 101, 101.5, 2000⟩ : Bar)],
      TRADING_WINDOW_START ≤ b.estHour ∧ b.estHour ≤ TRADING_WINDOW_END := by
    intro b hb
    rw [List.mem_singleton] at hb
    subst hb
    norm_num [TRADING_WINDOW_START, TRADING_WINDOW_END]
  have h5 : calculate_opening_range [⟨9.55, 100, 101, 100, 100.5, 1000⟩]
      = some ⟨101, 100, 1, 1000⟩ := by
    norm_num +decide [calculate_opening_range, openingBars, List.filter,
      MARKET_OPEN_EST, TRADING_WINDOW_START]
  have h6 : replay_day "S" (PositionManager.init 40)
        [⟨9.55, 100, 101, 100, 100.5, 1000⟩, ⟨10, 101, 102, 101, 101.5, 2000⟩]
      = .ok ⟨[⟨9.55, 100, 101, 100, 100.5, 1000⟩,
              ⟨10, 101, 102, 101, 101.5, 2000⟩],
             some ⟨101, 100, 1, 1000⟩,
             ⟨40, 40, [],
              [⟨"S", 101.5, 10, 8/15, 100, 109.62, some 101.5, some 10,
                some .endOfDay, 0, 0⟩], 1, false, 0⟩,
             none,
             [Event.entered "S" 101.5 (8/15) 100 109.62,
              Event.exited 101.5 .endOfDay]⟩ := by
    norm_num +decide [replay_day, replay_step, replay_rng, replay_entry,
      replay_exit_check, check_breakout, applyCalcOpeningRange,
      calculate_opening_range, openingBars, List.filter, List.foldlM, bind,
      Except.bind, pure, Except.pure, calculate_stops_and_targets,
      should_exit, Trade.close, PositionManager.open_trade,
      PositionManager.close_trade, PositionManager.can_open_trade,
      PositionManager.calculate_position_size, PositionManager.init,
      PositionManager.reset_daily_limits, MARKET_OPEN_EST,
      TRADING_WINDOW_START, TRADING_WINDOW_END, MAX_TRADES_PER_DAY,
      MAX_DAILY_LOSS_PCT]
  have h7 := replay_live_equivalence "S" (PositionManager.init 40)
    ⟨9.55, 100, 101, 100, 100.5, 1000⟩ [⟨10, 101, 102, 101, 101.5, 2000⟩]
    ⟨101, 100, 1, 1000⟩ _ h1 h2 h3 h4 h5 h6
  exact ⟨h1, h2, h3, h4, h5, h6, h7⟩

end TradingBot
